import Mathlib

/-!
Verification of the waste_backend Unified Data-Access Layer.

Shallow embedding of:
  * `app/services/redis_service.py` (`RedisService`): cache overlay over Redis,
    modelled as explicit state passing over a key/value store with absolute
    expiry times and an `up` flag standing for backend reachability (every
    `except`-branch of the Python is taken exactly when the backend is down).
  * `app/repositories/base.py` (`BaseRepository`, `MongoDBBaseRepository`):
    CRUD over a relational table (list of rows) and a document collection.

Machine values are unbounded (`Int`/`Nat`); JSON numbers are modelled as `Int`
(all fill levels and thresholds in the program are integers).  Serialized cache
payloads are modelled by `Stored`: `Stored.ofJson j` stands for the string
`json.dumps(j)` (always a nonempty, JSON-decodable string), `Stored.raw s` for
a stored string that is not decodable JSON (so `json.loads` raises on it).
-/

set_option maxRecDepth 4000

namespace Waste

/-- JSON value tree as produced by Python `json.loads` / consumed by
`json.dumps`; numbers restricted to integers, which covers every value the
service compares or stores in the claims under verification. -/
inductive Json where
  | null
  | bool (b : Bool)
  | num (n : Int)
  | str (s : String)
  | arr (elems : List Json)
  | obj (entries : List (String × Json))

/-- Payload held at a cache key.  `ofJson j` abbreviates the serialization
`json.dumps(j)`; `raw s` is a stored string that is not valid JSON text. -/
inductive Stored where
  | ofJson (j : Json)
  | raw (s : String)

/-- Python `json.loads` on a stored payload: succeeds exactly on serialized
JSON (`json.loads(json.dumps(j)) == j`), raises (here: `none`) on a
non-decodable string. -/
def jsonLoads : Stored → Option Json
  | .ofJson j => some j
  | .raw _ => none

/-- Python truthiness of the fetched payload (`if cached_data:`).  `json.dumps`
never returns the empty string, so serialized JSON is always truthy; a raw
string is truthy iff nonempty. -/
def Stored.truthy : Stored → Bool
  | .ofJson _ => true
  | .raw s => !s.isEmpty

/-- One key of the Redis keyspace: payload plus optional absolute expiry time
(`none` = persistent key).  The key is live while `now < expiry`. -/
structure Entry where
  key : String
  val : Stored
  expiry : Option Nat

/-- Liveness of an entry at time `now` (Redis expires a key set at `s` with
TTL `w` once `s + w ≤ now`). -/
def Entry.live (now : Nat) (e : Entry) : Bool :=
  match e.expiry with
  | none => true
  | some t => now < t

/-- State of the cache backend: the keyspace plus reachability.  `up = false`
makes every backend command raise, which the service's `except` branches
absorb. -/
structure RedisState where
  store : List Entry
  up : Bool

/-! Redis backend primitives.  Each returns `Except Unit _`: `.error ()` is the
backend raising (connection failure, or a type error such as `INCR` on a
non-integer value).  When `up = false` every command raises before doing
anything, which is the failure granularity of the model. -/

/-- Recursion core of the glob matcher, structurally recursive on a fuel
bound so that it computes inside the kernel.  Every recursive call strictly
decreases `p.length + s.length`, so any fuel above that sum gives the
fuel-free behaviour (`globAux_irrel`). -/
def globAux : Nat → List Char → List Char → Bool
  | 0, _, _ => false
  | _ + 1, [], s => s.isEmpty
  | fuel + 1, c :: ps, s =>
    if c = '*' then
      globAux fuel ps s ||
        (match s with
         | [] => false
         | _ :: s2 => globAux fuel (c :: ps) s2)
    else
      match s with
      | [] => false
      | d :: s2 => (if c = '?' then true else c = d) && globAux fuel ps s2

/-- Glob matching as used by the Redis `KEYS` command, for the pattern forms
the service ever builds: literal characters, `?` (any one character) and `*`
(any run of characters).  Character-class syntax `[...]` and backslash escape
are not modelled; no theorem below instantiates an identifier containing
`[` or `\`. -/
def globMatch (p s : List Char) : Bool := globAux (p.length + s.length + 1) p s

/-- Python `str.split(sep)` on character lists (always returns at least one
segment; the empty string splits to `[[]]`, matching `"".split(":") == [""]`). -/
def splitOnChar (sep : Char) : List Char → List (List Char)
  | [] => [[]]
  | c :: rest =>
    let r := splitOnChar sep rest
    if c = sep then [] :: r
    else
      match r with
      | [] => [[c]]
      | h :: t => (c :: h) :: t

/-- Replace the payload of every entry at `key` (Redis keys are logically
unique; `SET`-like commands overwrite in place), or append a fresh entry when
the key is absent. -/
def storeSet (store : List Entry) (key : String) (v : Stored) (expiry : Option Nat) :
    List Entry :=
  if store.any (fun e => e.key == key) then
    store.map (fun e => if e.key == key then ⟨key, v, expiry⟩ else e)
  else store ++ [⟨key, v, expiry⟩]

/-- `GET key`: the payload of the live entry at `key`, if any. -/
def redisGet (st : RedisState) (now : Nat) (key : String) : Except Unit (Option Stored) :=
  if st.up then
    .ok ((st.store.find? (fun e => e.key == key && e.live now)).map Entry.val)
  else .error ()

/-- `SETEX key ttl v`: store `v` at `key` with expiry `now + ttl`. -/
def redisSetex (st : RedisState) (now : Nat) (key : String) (ttl : Nat) (v : Stored) :
    Except Unit RedisState :=
  if st.up then .ok { st with store := storeSet st.store key v (some (now + ttl)) }
  else .error ()

/-- `INCR key`: atomic increment.  A missing (or expired) key is created at 1
with no expiry; an existing integer value is incremented in place keeping its
expiry; a non-integer value makes Redis raise. -/
def redisIncr (st : RedisState) (now : Nat) (key : String) :
    Except Unit (Int × RedisState) :=
  if st.up then
    match st.store.find? (fun e => e.key == key && e.live now) with
    | none => .ok (1, { st with store := storeSet st.store key (.ofJson (.num 1)) none })
    | some e =>
      match e.val with
      | .ofJson (.num n) =>
          .ok (n + 1,
            { st with store := storeSet st.store key (.ofJson (.num (n + 1))) e.expiry })
      | _ => .error ()
  else .error ()

/-- `EXPIRE key ttl`: set the expiry of a live key; `false` when the key does
not exist. -/
def redisExpire (st : RedisState) (now : Nat) (key : String) (ttl : Nat) :
    Except Unit (Bool × RedisState) :=
  if st.up then
    match st.store.find? (fun e => e.key == key && e.live now) with
    | none => .ok (false, st)
    | some e =>
        .ok (true, { st with store := storeSet st.store key e.val (some (now + ttl)) })
  else .error ()

/-- `KEYS pattern`: the keys of all live entries matching the glob pattern, in
store order. -/
def redisKeys (st : RedisState) (now : Nat) (pattern : String) :
    Except Unit (List String) :=
  if st.up then
    .ok ((st.store.filter
            (fun e => e.live now && globMatch pattern.data e.key.data)).map Entry.key)
  else .error ()

/-- `DEL key...`: remove every entry whose key is listed; returns the number
of entries removed. -/
def redisDel (st : RedisState) (keys : List String) : Except Unit (Nat × RedisState) :=
  if st.up then
    .ok ((st.store.filter (fun e => keys.contains e.key)).length,
         { st with store := st.store.filter (fun e => !keys.contains e.key) })
  else .error ()

/-! The `RedisService` methods (`app/services/redis_service.py`).  Each method
wraps its body in `try/except` and absorbs any backend exception, so the Lean
functions are total: they return the new state (writes) or the read result,
never an error. -/

/-- Value of `settings.redis_cache_ttl` (`app/core/config.py`). -/
def redis_cache_ttl : Nat := 3600

/-- `cache_bin_status`: `SETEX bin:status:{bin_id}` with the default TTL and
the serialized dict; a backend failure is logged and absorbed. -/
def cache_bin_status (st : RedisState) (now : Nat) (bin_id : String)
    (bin_data : List (String × Json)) : RedisState :=
  match redisSetex st now ("bin:status:" ++ bin_id) redis_cache_ttl
      (.ofJson (.obj bin_data)) with
  | .ok st2 => st2
  | .error _ => st

/-- `get_cached_bin_status`: `GET bin:status:{bin_id}`, then `json.loads` when
the reply is truthy; miss, decode failure and backend failure all yield
`none`. -/
def get_cached_bin_status (st : RedisState) (now : Nat) (bin_id : String) :
    Option Json :=
  match redisGet st now ("bin:status:" ++ bin_id) with
  | .error _ => none
  | .ok none => none
  | .ok (some v) => if v.truthy then jsonLoads v else none

/-- `cache_mqtt_message`: `SETEX mqtt:message:{topic}` with a 300 s TTL. -/
def cache_mqtt_message (st : RedisState) (now : Nat) (topic : String)
    (message : List (String × Json)) : RedisState :=
  match redisSetex st now ("mqtt:message:" ++ topic) 300 (.ofJson (.obj message)) with
  | .ok st2 => st2
  | .error _ => st

/-- Loop body of `get_recent_mqtt_messages`: `GET` each key and append the
decoded message; a `json.loads` failure raises out of the loop (`none`), an
untruthy reply is skipped. -/
def recent_messages_step (st : RedisState) (now : Nat)
    (acc : Option (List Json)) (key : String) : Option (List Json) :=
  match acc with
  | none => none
  | some msgs =>
    match redisGet st now key with
    | .error _ => none
    | .ok none => some msgs
    | .ok (some v) =>
      if v.truthy then
        match jsonLoads v with
        | some j => some (msgs ++ [j])
        | none => none
      else some msgs

/-- `get_recent_mqtt_messages`: pattern-scan
`mqtt:message:waste_bins/{bin_id}/*`, read the first `limit` keys; any
exception (backend or decode) yields `[]`. -/
def get_recent_mqtt_messages (st : RedisState) (now : Nat) (bin_id : String)
    (limit : Nat := 10) : List Json :=
  match redisKeys st now ("mqtt:message:waste_bins/" ++ bin_id ++ "/*") with
  | .error _ => []
  | .ok keys =>
    if keys.isEmpty then []
    else
      match (keys.take limit).foldl (recent_messages_step st now) (some []) with
      | some msgs => msgs
      | none => []

/-- `cache_analytics_data`: `SETEX analytics:{data_type}` with a 1800 s TTL. -/
def cache_analytics_data (st : RedisState) (now : Nat) (data_type : String)
    (data : List (String × Json)) : RedisState :=
  match redisSetex st now ("analytics:" ++ data_type) 1800 (.ofJson (.obj data)) with
  | .ok st2 => st2
  | .error _ => st

/-- `get_cached_analytics`: same read shape as `get_cached_bin_status`. -/
def get_cached_analytics (st : RedisState) (now : Nat) (data_type : String) :
    Option Json :=
  match redisGet st now ("analytics:" ++ data_type) with
  | .error _ => none
  | .ok none => none
  | .ok (some v) => if v.truthy then jsonLoads v else none

/-- `cache_detection_results`: `SETEX detection:{bin_id}` with a 900 s TTL. -/
def cache_detection_results (st : RedisState) (now : Nat) (bin_id : String)
    (results : List (String × Json)) : RedisState :=
  match redisSetex st now ("detection:" ++ bin_id) 900 (.ofJson (.obj results)) with
  | .ok st2 => st2
  | .error _ => st

/-- `get_cached_detection`: same read shape as `get_cached_bin_status`. -/
def get_cached_detection (st : RedisState) (now : Nat) (bin_id : String) :
    Option Json :=
  match redisGet st now ("detection:" ++ bin_id) with
  | .error _ => none
  | .ok none => none
  | .ok (some v) => if v.truthy then jsonLoads v else none

/-- `increment_rate_limit`: `INCR key`; when the post-increment count is 1,
`EXPIRE key window`; any exception yields 0.  (The `EXPIRE`-failure branch can
only be reached together with an `INCR` failure in this model, since
reachability does not change mid-call.) -/
def increment_rate_limit (st : RedisState) (now : Nat) (key : String)
    (window : Nat := 60) : Int × RedisState :=
  match redisIncr st now key with
  | .error _ => (0, st)
  | .ok (current, st1) =>
    if current == 1 then
      match redisExpire st1 now key window with
      | .error _ => (0, st1)
      | .ok (_, st2) => (current, st2)
    else (current, st1)

/-- One round of `clear_bin_cache`: `KEYS pattern`, then `DEL` the matches if
any. -/
def clear_pattern_step (now : Nat) (acc : Except Unit RedisState) (pattern : String) :
    Except Unit RedisState :=
  match acc with
  | .error e => .error e
  | .ok s =>
    match redisKeys s now pattern with
    | .error e => .error e
    | .ok keys =>
      if keys.isEmpty then .ok s
      else
        match redisDel s keys with
        | .error e => .error e
        | .ok (_, s2) => .ok s2

/-- `clear_bin_cache`: delete the keys matching the three per-bin patterns;
a backend exception is absorbed (it can only occur up-front in this model, so
the pre-call state is returned unchanged, matching an unreachable backend). -/
def clear_bin_cache (st : RedisState) (now : Nat) (bin_id : String) : RedisState :=
  match ["bin:status:" ++ bin_id,
         "detection:" ++ bin_id,
         "mqtt:message:waste_bins/" ++ bin_id ++ "/*"].foldl
          (clear_pattern_step now) (.ok st) with
  | .ok s => s
  | .error _ => st

/-- Python `bin_data.get("fill_level", 0)` on a decoded JSON dict. -/
def dictGet (entries : List (String × Json)) (k : String) (dflt : Json) : Json :=
  match entries.find? (fun p => p.1 == k) with
  | some p => p.2
  | none => dflt

/-- Python `value > threshold` for a decoded JSON value against an integer:
defined on numbers and booleans (Python's `bool` is an `int`), raises
(`none`) on any other type. -/
def pyGtInt : Json → Int → Option Bool
  | .num n, m => some (decide (m < n))
  | .bool b, m => some (decide (m < (if b then (1 : Int) else 0)))
  | _, _ => none

/-- The criticality test of `get_all_critical_bins`:
`bin_data.get("fill_level", 0) > threshold`; raises (`none`) when the decoded
value is not a dict or the fill level is not comparable to an integer. -/
def bin_is_critical (threshold : Int) (data : Json) : Option Bool :=
  match data with
  | .obj entries => pyGtInt (dictGet entries "fill_level" (.num 0)) threshold
  | _ => none

/-- Python `key.split(":")[-1]`, the bin-id extraction of
`get_all_critical_bins`. -/
def lastColonSegment (key : String) : String :=
  ⟨(splitOnChar ':' key.data).getLastD []⟩

/-- Loop body of `get_all_critical_bins`: read one status key, decode it, and
append the extracted bin id when the fill level exceeds the threshold; `none`
propagates an exception out of the loop. -/
def critical_step (st : RedisState) (now : Nat) (threshold : Int)
    (acc : Option (List String)) (key : String) : Option (List String) :=
  match acc with
  | none => none
  | some bins =>
    match redisGet st now key with
    | .error _ => none
    | .ok none => some bins
    | .ok (some v) =>
      if v.truthy then
        match jsonLoads v with
        | none => none
        | some data =>
          match bin_is_critical threshold data with
          | none => none
          | some true => some (bins ++ [lastColonSegment key])
          | some false => some bins
      else some bins

/-- `get_all_critical_bins`, generalized over the threshold the source fixes
at 80: scan `bin:status:*`, keep the ids of entries whose fill level exceeds
the threshold; any exception yields `[]`. -/
def get_all_critical_bins_at (st : RedisState) (now : Nat) (threshold : Int) :
    List String :=
  match redisKeys st now "bin:status:*" with
  | .error _ => []
  | .ok keys =>
    match keys.foldl (critical_step st now threshold) (some []) with
    | some bins => bins
    | none => []

/-- `get_all_critical_bins`: the source's fixed threshold of 80. -/
def get_all_critical_bins (st : RedisState) (now : Nat) : List String :=
  get_all_critical_bins_at st now 80

/-- `set_websocket_connection`: `SETEX ws:connection:{connection_id}` with a
3600 s TTL; the user id is stored as a plain (not JSON-serialized) string. -/
def set_websocket_connection (st : RedisState) (now : Nat)
    (connection_id user_id : String) : RedisState :=
  match redisSetex st now ("ws:connection:" ++ connection_id) 3600 (.raw user_id) with
  | .ok st2 => st2
  | .error _ => st

/-- `remove_websocket_connection`: `DEL ws:connection:{connection_id}`. -/
def remove_websocket_connection (st : RedisState) (connection_id : String) :
    RedisState :=
  match redisDel st ["ws:connection:" ++ connection_id] with
  | .ok (_, st2) => st2
  | .error _ => st

/-! The repositories (`app/repositories/base.py`).  `BaseRepository` is
generic over its SQLAlchemy model; here a row is a mapping from column name to
value, generic over the value type `α`, and the model class is represented by
its list of mapped attribute names `cols` (`hasattr(self.model, key)` is
`cols.contains key`).  The backing store's state carries the same `up`
reachability flag as the cache model; `up = false` makes every statement
raise, which `create`/`update`/`delete` answer with rollback. -/

/-- A row or document: mapping from column/field name to value
(`Dict[str, Any]`). -/
abbrev Row (α : Type) := List (String × α)

/-- Value of a named column of a row (`None`/absent models SQL NULL). -/
def lookupField {α : Type} (r : Row α) (k : String) : Option α :=
  (r.find? (fun p => p.1 == k)).map (·.2)

/-- The primary-key column `id` of a relational row (`self.model.id`). -/
def rowId {α : Type} (r : Row α) : Option α := lookupField r "id"

/-- State of the relational table backing one repository. -/
structure SqlDB (α : Type) where
  rows : List (Row α)
  up : Bool

/-- Primary-key assignment performed by the relational store on insert
(PostgreSQL autoincrement), bundled with its contract: the assigned key is
fresh for the table it is assigned against.  The Python code never generates
ids itself; `session.refresh` reads the store-assigned key back. -/
structure IdGen (α : Type) where
  gen : List (Row α) → α
  fresh : ∀ rows r, r ∈ rows → rowId r ≠ some (gen rows)

/-- `UPDATE ... SET col = v` for a single column: overwrite the column where
present, add it otherwise. -/
def setField {α : Type} (r : Row α) (p : String × α) : Row α :=
  if r.any (fun q => q.1 == p.1) then
    r.map (fun q => if q.1 == p.1 then p else q)
  else r ++ [p]

/-- Apply all assignments of an update's `values(**obj_data)`. -/
def setFields {α : Type} (r : Row α) (obj_data : Row α) : Row α :=
  obj_data.foldl setField r

/-- The primary keys present in a table. -/
def idsOf {α : Type} (rows : List (Row α)) : List α := rows.filterMap rowId

/-- Whether two rows of a table share a primary key (the state a UNIQUE/PK
constraint rejects). -/
def hasDupIds {α : Type} [DecidableEq α] : List (Row α) → Bool
  | [] => false
  | r :: rest =>
    (match rowId r with
     | some i => (idsOf rest).any (fun j => decide (j = i))
     | none => false) || hasDupIds rest

/-- `BaseRepository.create`: construct the model instance (a `TypeError` for
an unknown column kwarg, and a PK violation at `commit`, both raise), insert
and commit; on any exception, roll back and re-raise.  The id is
store-assigned via `g` when `obj_data` does not supply one. -/
def sqlCreate {α : Type} [DecidableEq α] (g : IdGen α) (cols : List String)
    (db : SqlDB α) (obj_data : Row α) : Except Unit (Row α) × SqlDB α :=
  if !db.up then (.error (), db)
  else if !(obj_data.all (fun p => cols.contains p.1)) then (.error (), db)
  else
    let newRow :=
      if obj_data.any (fun p => p.1 == "id") then obj_data
      else obj_data ++ [("id", g.gen db.rows)]
    match rowId newRow with
    | some i =>
      if db.rows.any (fun r => decide (rowId r = some i)) then (.error (), db)
      else (.ok newRow, { db with rows := db.rows ++ [newRow] })
    | none => (.error (), db)

/-- The conjunction of where-clauses `get_multi` builds: one equality test per
filter key that is an attribute of the model; other filter keys are skipped by
the `hasattr` guard. -/
def rowMatches {α : Type} [DecidableEq α] (cols : List String) (filters : Row α)
    (r : Row α) : Bool :=
  filters.all (fun p => !cols.contains p.1 || decide (lookupField r p.1 = some p.2))

/-- `BaseRepository.get_multi`: filtered page of rows (`WHERE` conjunction,
then `OFFSET skip LIMIT limit`); any backend exception yields `[]`. -/
def sqlGetMulti {α : Type} [DecidableEq α] (cols : List String) (db : SqlDB α)
    (skip limit : Nat) (filters : Row α) : List (Row α) :=
  if db.up then ((db.rows.filter (rowMatches cols filters)).drop skip).take limit
  else []

/-- `BaseRepository.update`: `UPDATE ... WHERE id = id RETURNING *`, commit,
then `scalar_one_or_none`; on an exception before commit (backend down,
unknown column, PK conflict introduced by the update) roll back and return
`None`; `scalar_one_or_none` raising after a successful commit (several rows
matched) also returns `None` but leaves the committed update in place. -/
def sqlUpdate {α : Type} [DecidableEq α] (cols : List String) (db : SqlDB α)
    (id : α) (obj_data : Row α) : Option (Row α) × SqlDB α :=
  if !db.up then (none, db)
  else if !(obj_data.all (fun p => cols.contains p.1)) then (none, db)
  else
    let results := (db.rows.filter (fun r => decide (rowId r = some id))).map
        (fun r => setFields r obj_data)
    let newRows := db.rows.map
        (fun r => if rowId r = some id then setFields r obj_data else r)
    if hasDupIds newRows && !hasDupIds db.rows then (none, db)
    else
      match results with
      | [r] => (some r, { db with rows := newRows })
      | [] => (none, db)
      | _ => (none, { db with rows := newRows })

/-- `BaseRepository.delete`: `DELETE WHERE id = id`, commit, report
`rowcount > 0`; a backend exception rolls back and returns `False`. -/
def sqlDelete {α : Type} [DecidableEq α] (db : SqlDB α) (id : α) :
    Bool × SqlDB α :=
  if db.up then
    (db.rows.any (fun r => decide (rowId r = some id)),
     { db with rows := db.rows.filter (fun r => !decide (rowId r = some id)) })
  else (false, db)

/-- State of the MongoDB collection backing one document repository. -/
structure MongoColl (α : Type) where
  docs : List (Row α)
  up : Bool

/-- The key field `_id` of a document. -/
def docId {α : Type} (d : Row α) : Option α := lookupField d "_id"

/-- `delete_one` removes only the first document matching the `_id` query. -/
def removeFirstDoc {α : Type} [DecidableEq α] : List (Row α) → α → List (Row α)
  | [], _ => []
  | d :: rest, i => if docId d = some i then rest else d :: removeFirstDoc rest i

/-- `MongoDBBaseRepository.delete`: `delete_one({"_id": id})`, report
`deleted_count > 0`; a backend exception yields `False`. -/
def mongoDelete {α : Type} [DecidableEq α] (db : MongoColl α) (id : α) :
    Bool × MongoColl α :=
  if db.up then
    (db.docs.any (fun d => decide (docId d = some id)),
     { db with docs := removeFirstDoc db.docs id })
  else (false, db)

/-! Supporting lemmas. -/

theorem bool_not_true {b : Bool} (h : ¬b = true) : b = false := by
  cases b
  · rfl
  · exact absurd rfl h

theorem find?_storeSet_self (store : List Entry) (k : String) (v : Stored)
    (exp : Option Nat) (t : Nat) :
    (storeSet store k v exp).find? (fun e => e.key == k && e.live t) =
      if Entry.live t ⟨k, v, exp⟩ then some (⟨k, v, exp⟩ : Entry) else none := by
  unfold storeSet
  by_cases h : store.any (fun e => e.key == k) = true
  · rw [if_pos h, List.find?_map]
    by_cases hl : Entry.live t ⟨k, v, exp⟩
    · rw [if_pos hl]
      have h1 : ((fun e : Entry => e.key == k && e.live t) ∘
          (fun e : Entry => if e.key == k then (⟨k, v, exp⟩ : Entry) else e)) =
          fun e : Entry => e.key == k := by
        funext e
        by_cases hk : e.key = k
        · simp [Function.comp, hk, hl]
        · simp [Function.comp, hk]
      rw [h1]
      cases hfind : store.find? (fun e : Entry => e.key == k) with
      | none =>
        rw [List.find?_eq_none] at hfind
        obtain ⟨e0, he0, hk0⟩ := List.any_eq_true.mp h
        exact absurd hk0 (hfind e0 he0)
      | some e1 =>
        have hk1 : e1.key = k := by simpa using List.find?_some hfind
        simp [hk1]
    · rw [if_neg hl]
      have h3 : store.find? ((fun e : Entry => e.key == k && e.live t) ∘
          (fun e : Entry => if e.key == k then (⟨k, v, exp⟩ : Entry) else e)) = none := by
        rw [List.find?_eq_none]
        intro e he
        by_cases hk : e.key = k <;> simp [Function.comp, hk, hl]
      rw [h3]
      rfl
  · rw [if_neg h, List.find?_append]
    have h2 : store.find? (fun e => e.key == k && e.live t) = none := by
      rw [List.find?_eq_none]
      intro e he
      have hk : ¬(e.key == k) = true := fun hk => h (List.any_eq_true.mpr ⟨e, he, hk⟩)
      simp [hk]
    rw [h2]
    by_cases hl : Entry.live t ⟨k, v, exp⟩ <;> simp [List.find?, hl]

/-! ### C7: cache/read round trip for the status cache -/

/-- C7: for every entity identifier and JSON dict, `cache_bin_status` followed
by `get_cached_bin_status` before the TTL has elapsed returns exactly the
cached value, and returns `absent` once the TTL has elapsed. -/
theorem cache_then_get_status (st : RedisState) (now t2 : Nat) (bin_id : String)
    (bin_data : List (String × Json)) (hup : st.up = true) :
    (t2 < now + redis_cache_ttl →
      get_cached_bin_status (cache_bin_status st now bin_id bin_data) t2 bin_id
        = some (.obj bin_data)) ∧
    (now + redis_cache_ttl ≤ t2 →
      get_cached_bin_status (cache_bin_status st now bin_id bin_data) t2 bin_id
        = none) := by
  have hset : cache_bin_status st now bin_id bin_data =
      { st with store := (storeSet st.store ("bin:status:" ++ bin_id)
                  (.ofJson (.obj bin_data)) (some (now + redis_cache_ttl))) } := by
    simp [cache_bin_status, redisSetex, hup]
  rw [hset]
  constructor
  · intro ht
    have hlive : Entry.live t2 ⟨"bin:status:" ++ bin_id, .ofJson (.obj bin_data),
        some (now + redis_cache_ttl)⟩ = true := by
      simp [Entry.live]; omega
    simp [get_cached_bin_status, redisGet, hup, find?_storeSet_self, hlive,
      Stored.truthy, jsonLoads]
  · intro ht
    have hdead : Entry.live t2 ⟨"bin:status:" ++ bin_id, .ofJson (.obj bin_data),
        some (now + redis_cache_ttl)⟩ = false := by
      simp [Entry.live]; omega
    simp [get_cached_bin_status, redisGet, hup, find?_storeSet_self, hdead]

/-- C7 witness: caching `{"fillLevel": 95}` for `bin-42` at time 0 and reading
at time 100 yields the cached dict; reading at time 3600 (the default TTL)
yields `absent`. -/
theorem cache_then_get_status_witness :
    (⟨[], true⟩ : RedisState).up = true ∧
    get_cached_bin_status
      (cache_bin_status ⟨[], true⟩ 0 "bin-42" [("fillLevel", .num 95)]) 100 "bin-42"
        = some (.obj [("fillLevel", .num 95)]) ∧
    get_cached_bin_status
      (cache_bin_status ⟨[], true⟩ 0 "bin-42" [("fillLevel", .num 95)]) 3600 "bin-42"
        = none :=
  ⟨rfl,
   (cache_then_get_status ⟨[], true⟩ 0 100 "bin-42" [("fillLevel", .num 95)] rfl).1
     (by decide),
   (cache_then_get_status ⟨[], true⟩ 0 3600 "bin-42" [("fillLevel", .num 95)] rfl).2
     (by decide)⟩

/-! ### C1: cache-backend failures are absorbed, non-JSON payloads read as miss -/

/-- C1: with the backend unreachable, every `RedisService` operation returns
its miss/zero/empty equivalent and leaves the keyspace untouched (the Lean
return types are total, so no error can propagate); and a read whose stored
payload is not decodable JSON returns `absent`. -/
theorem cache_fail_open (st st2 : RedisState) (now lim w : Nat)
    (bin_id topic dtype key cid uid s : String) (d : List (String × Json))
    (hup : st.up = false) :
    cache_bin_status st now bin_id d = st ∧
    get_cached_bin_status st now bin_id = none ∧
    cache_mqtt_message st now topic d = st ∧
    get_recent_mqtt_messages st now bin_id lim = [] ∧
    cache_analytics_data st now dtype d = st ∧
    get_cached_analytics st now dtype = none ∧
    cache_detection_results st now bin_id d = st ∧
    get_cached_detection st now bin_id = none ∧
    increment_rate_limit st now key w = (0, st) ∧
    clear_bin_cache st now bin_id = st ∧
    get_all_critical_bins st now = [] ∧
    set_websocket_connection st now cid uid = st ∧
    remove_websocket_connection st cid = st ∧
    (redisGet st2 now ("bin:status:" ++ bin_id) = .ok (some (.raw s)) →
      get_cached_bin_status st2 now bin_id = none) ∧
    (redisGet st2 now ("analytics:" ++ dtype) = .ok (some (.raw s)) →
      get_cached_analytics st2 now dtype = none) ∧
    (redisGet st2 now ("detection:" ++ bin_id) = .ok (some (.raw s)) →
      get_cached_detection st2 now bin_id = none) := by
  refine ⟨?_, ?_, ?_, ?_, ?_, ?_, ?_, ?_, ?_, ?_, ?_, ?_, ?_, ?_, ?_, ?_⟩
  · simp [cache_bin_status, redisSetex, hup]
  · simp [get_cached_bin_status, redisGet, hup]
  · simp [cache_mqtt_message, redisSetex, hup]
  · simp [get_recent_mqtt_messages, redisKeys, hup]
  · simp [cache_analytics_data, redisSetex, hup]
  · simp [get_cached_analytics, redisGet, hup]
  · simp [cache_detection_results, redisSetex, hup]
  · simp [get_cached_detection, redisGet, hup]
  · simp [increment_rate_limit, redisIncr, hup]
  · simp [clear_bin_cache, clear_pattern_step, redisKeys, hup]
  · simp [get_all_critical_bins, get_all_critical_bins_at, redisKeys, hup]
  · simp [set_websocket_connection, redisSetex, hup]
  · simp [remove_websocket_connection, redisDel, hup]
  · intro hget
    by_cases hs : (Stored.raw s).truthy = true <;>
      simp [get_cached_bin_status, hget, hs, jsonLoads]
  · intro hget
    by_cases hs : (Stored.raw s).truthy = true <;>
      simp [get_cached_analytics, hget, hs, jsonLoads]
  · intro hget
    by_cases hs : (Stored.raw s).truthy = true <;>
      simp [get_cached_detection, hget, hs, jsonLoads]

/-- C1 witness: the fully instantiated statement at a down backend (`up =
false`) holding one entry, and a reachable backend holding a non-JSON payload
under each read key. -/
theorem cache_fail_open_witness :
    (⟨[⟨"bin:status:b", .ofJson (.obj []), some 10⟩], false⟩ : RedisState).up = false ∧
    (cache_bin_status ⟨[⟨"bin:status:b", .ofJson (.obj []), some 10⟩], false⟩ 0 "b"
        [("fill_level", .num 90)]
      = ⟨[⟨"bin:status:b", .ofJson (.obj []), some 10⟩], false⟩ ∧
     get_cached_bin_status ⟨[⟨"bin:status:b", .ofJson (.obj []), some 10⟩], false⟩ 0 "b"
       = none ∧
     cache_mqtt_message ⟨[⟨"bin:status:b", .ofJson (.obj []), some 10⟩], false⟩ 0 "t"
        [("fill_level", .num 90)]
      = ⟨[⟨"bin:status:b", .ofJson (.obj []), some 10⟩], false⟩ ∧
     get_recent_mqtt_messages ⟨[⟨"bin:status:b", .ofJson (.obj []), some 10⟩], false⟩ 0 "b" 10
       = [] ∧
     cache_analytics_data ⟨[⟨"bin:status:b", .ofJson (.obj []), some 10⟩], false⟩ 0 "k"
        [("fill_level", .num 90)]
      = ⟨[⟨"bin:status:b", .ofJson (.obj []), some 10⟩], false⟩ ∧
     get_cached_analytics ⟨[⟨"bin:status:b", .ofJson (.obj []), some 10⟩], false⟩ 0 "k"
       = none ∧
     cache_detection_results ⟨[⟨"bin:status:b", .ofJson (.obj []), some 10⟩], false⟩ 0 "b"
        [("fill_level", .num 90)]
      = ⟨[⟨"bin:status:b", .ofJson (.obj []), some 10⟩], false⟩ ∧
     get_cached_detection ⟨[⟨"bin:status:b", .ofJson (.obj []), some 10⟩], false⟩ 0 "b"
       = none ∧
     increment_rate_limit ⟨[⟨"bin:status:b", .ofJson (.obj []), some 10⟩], false⟩ 0 "rl" 60
       = (0, ⟨[⟨"bin:status:b", .ofJson (.obj []), some 10⟩], false⟩) ∧
     clear_bin_cache ⟨[⟨"bin:status:b", .ofJson (.obj []), some 10⟩], false⟩ 0 "b"
       = ⟨[⟨"bin:status:b", .ofJson (.obj []), some 10⟩], false⟩ ∧
     get_all_critical_bins ⟨[⟨"bin:status:b", .ofJson (.obj []), some 10⟩], false⟩ 0
       = [] ∧
     set_websocket_connection ⟨[⟨"bin:status:b", .ofJson (.obj []), some 10⟩], false⟩ 0
        "c" "u"
      = ⟨[⟨"bin:status:b", .ofJson (.obj []), some 10⟩], false⟩ ∧
     remove_websocket_connection ⟨[⟨"bin:status:b", .ofJson (.obj []), some 10⟩], false⟩ "c"
       = ⟨[⟨"bin:status:b", .ofJson (.obj []), some 10⟩], false⟩ ∧
     (redisGet ⟨[⟨"bin:status:b", .raw "oops", none⟩, ⟨"analytics:k", .raw "oops", none⟩,
          ⟨"detection:b", .raw "oops", none⟩], true⟩ 0 ("bin:status:" ++ "b")
        = .ok (some (.raw "oops")) →
      get_cached_bin_status ⟨[⟨"bin:status:b", .raw "oops", none⟩,
          ⟨"analytics:k", .raw "oops", none⟩, ⟨"detection:b", .raw "oops", none⟩], true⟩ 0 "b"
        = none) ∧
     (redisGet ⟨[⟨"bin:status:b", .raw "oops", none⟩, ⟨"analytics:k", .raw "oops", none⟩,
          ⟨"detection:b", .raw "oops", none⟩], true⟩ 0 ("analytics:" ++ "k")
        = .ok (some (.raw "oops")) →
      get_cached_analytics ⟨[⟨"bin:status:b", .raw "oops", none⟩,
          ⟨"analytics:k", .raw "oops", none⟩, ⟨"detection:b", .raw "oops", none⟩], true⟩ 0 "k"
        = none) ∧
     (redisGet ⟨[⟨"bin:status:b", .raw "oops", none⟩, ⟨"analytics:k", .raw "oops", none⟩,
          ⟨"detection:b", .raw "oops", none⟩], true⟩ 0 ("detection:" ++ "b")
        = .ok (some (.raw "oops")) →
      get_cached_detection ⟨[⟨"bin:status:b", .raw "oops", none⟩,
          ⟨"analytics:k", .raw "oops", none⟩, ⟨"detection:b", .raw "oops", none⟩], true⟩ 0 "b"
        = none)) :=
  ⟨rfl,
   cache_fail_open ⟨[⟨"bin:status:b", .ofJson (.obj []), some 10⟩], false⟩
     ⟨[⟨"bin:status:b", .raw "oops", none⟩, ⟨"analytics:k", .raw "oops", none⟩,
       ⟨"detection:b", .raw "oops", none⟩], true⟩
     0 10 60 "b" "t" "k" "rl" "c" "u" "oops" [("fill_level", .num 90)] rfl⟩

/-! ### C6: create either inserts or rolls back, never both -/

theorem mem_le_foldr_max (l : List Int) (x : Int) (hx : x ∈ l) :
    x ≤ l.foldr max 0 := by
  induction l with
  | nil => cases hx
  | cons a t ih =>
    rcases List.mem_cons.mp hx with rfl | h
    · exact le_max_left _ _
    · exact le_trans (ih h) (le_max_right _ _)

/-- An integer autoincrement key assigner (the shape PostgreSQL serial columns
provide), used to witness theorems about `sqlCreate`. -/
def intGen : IdGen Int where
  gen rows := (idsOf rows).foldr max 0 + 1
  fresh := by
    intro rows r hr hcontra
    have hmem : ((idsOf rows).foldr max 0 + 1) ∈ idsOf rows :=
      List.mem_filterMap.mpr ⟨r, hr, hcontra⟩
    have := mem_le_foldr_max (idsOf rows) _ hmem
    omega

/-- C6: `create` either returns a new row appended to the table whose id is
absent from the prior table (store-assigned when not supplied), or raises
with the table unchanged (the rollback); there is no outcome that both raises
and leaves a partial write visible. -/
theorem create_atomic {α : Type} [DecidableEq α] (g : IdGen α) (cols : List String)
    (db : SqlDB α) (obj_data : Row α) :
    (∀ r, (sqlCreate g cols db obj_data).1 = .ok r →
      (sqlCreate g cols db obj_data).2.rows = db.rows ++ [r] ∧
      (∀ r2 ∈ db.rows, rowId r2 ≠ rowId r) ∧
      (obj_data.all (fun p => !(p.1 == "id")) = true →
        rowId r = some (g.gen db.rows))) ∧
    (∀ e, (sqlCreate g cols db obj_data).1 = .error e →
      (sqlCreate g cols db obj_data).2 = db) := by
  by_cases hu : db.up = true
  case neg =>
    have hub : db.up = false := bool_not_true hu
    have heq : sqlCreate g cols db obj_data = (.error (), db) := by
      unfold sqlCreate
      rw [hub]
      rfl
    rw [heq]; simp
  case pos =>
  by_cases hc : obj_data.all (fun p => cols.contains p.1) = true
  case neg =>
    have hcb : obj_data.all (fun p => cols.contains p.1) = false := bool_not_true hc
    have heq : sqlCreate g cols db obj_data = (.error (), db) := by
      unfold sqlCreate
      rw [hu, hcb]
      rfl
    rw [heq]; simp
  case pos =>
  by_cases hid : obj_data.any (fun p => p.1 == "id") = true
  · cases hrow : rowId obj_data with
    | none =>
      have heq : sqlCreate g cols db obj_data = (.error (), db) := by
        unfold sqlCreate
        rw [hu, hc, hid]
        simp only [Bool.not_true, Bool.false_eq_true, if_false, if_true, hrow]
      rw [heq]; simp
    | some i =>
      by_cases hdup : db.rows.any (fun r => decide (rowId r = some i)) = true
      · have heq : sqlCreate g cols db obj_data = (.error (), db) := by
          unfold sqlCreate
          rw [hu, hc, hid]
          simp only [Bool.not_true, Bool.false_eq_true, if_false, if_true, hrow, hdup]
        rw [heq]; simp
      · have hdb : db.rows.any (fun r => decide (rowId r = some i)) = false :=
          bool_not_true hdup
        have heq : sqlCreate g cols db obj_data =
            (.ok obj_data, { db with rows := db.rows ++ [obj_data] }) := by
          unfold sqlCreate
          rw [hu, hc, hid]
          simp only [Bool.not_true, Bool.false_eq_true, if_false, if_true, hrow, hdb]
        rw [heq]
        refine ⟨?_, by simp⟩
        intro r hr
        obtain rfl : obj_data = r := by simpa using hr
        refine ⟨rfl, ?_, ?_⟩
        · intro r2 h2 hcontra
          rw [hrow] at hcontra
          exact hdup (List.any_eq_true.mpr ⟨r2, h2, decide_eq_true hcontra⟩)
        · intro hnone
          obtain ⟨p, hp, hpid⟩ := List.any_eq_true.mp hid
          have := List.all_eq_true.mp hnone p hp
          simp [hpid] at this
  · have hidb : obj_data.any (fun p => p.1 == "id") = false := bool_not_true hid
    have hrow : rowId (obj_data ++ [("id", g.gen db.rows)]) = some (g.gen db.rows) := by
      unfold rowId lookupField
      rw [List.find?_append]
      have h4 : obj_data.find? (fun p => p.1 == "id") = none := by
        rw [List.find?_eq_none]
        intro p hp hcontra
        exact hid (List.any_eq_true.mpr ⟨p, hp, hcontra⟩)
      rw [h4]
      simp [List.find?]
    by_cases hdup : db.rows.any
        (fun r => decide (rowId r = some (g.gen db.rows))) = true
    · exfalso
      obtain ⟨r2, h2, hdec⟩ := List.any_eq_true.mp hdup
      exact g.fresh db.rows r2 h2 (of_decide_eq_true hdec)
    · have hdb : db.rows.any
          (fun r => decide (rowId r = some (g.gen db.rows))) = false :=
        bool_not_true hdup
      have heq : sqlCreate g cols db obj_data =
          (.ok (obj_data ++ [("id", g.gen db.rows)]),
           { db with rows := db.rows ++ [obj_data ++ [("id", g.gen db.rows)]] }) := by
        unfold sqlCreate
        rw [hu, hc, hidb]
        simp only [Bool.not_true, Bool.false_eq_true, if_false, if_true, hrow, hdb]
      rw [heq]
      refine ⟨?_, by simp⟩
      intro r hr
      obtain rfl : obj_data ++ [("id", g.gen db.rows)] = r := by simpa using hr
      refine ⟨rfl, ?_, fun _ => hrow⟩
      intro r2 h2 hcontra
      rw [hrow] at hcontra
      exact hdup (List.any_eq_true.mpr ⟨r2, h2, decide_eq_true hcontra⟩)

/-- C6 witness: creating `{"name": 7}` in an empty integer-keyed table
returns the row with the assigned id 1, appended to the table. -/
theorem create_atomic_witness :
    (sqlCreate intGen ["id", "name"] ⟨[], true⟩ [("name", (7 : Int))]).1
      = .ok [("name", 7), ("id", 1)] ∧
    (sqlCreate intGen ["id", "name"] ⟨[], true⟩ [("name", (7 : Int))]).2.rows
      = [] ++ [[("name", (7 : Int)), ("id", 1)]] :=
  ⟨rfl,
   ((create_atomic intGen ["id", "name"] ⟨[], true⟩ [("name", (7 : Int))]).1
     [("name", 7), ("id", 1)] rfl).1⟩

/-! ### C4: get_multi pagination, filtering, fail-open reads -/

theorem rowMatches_restrict {α : Type} [DecidableEq α] (cols : List String)
    (filters : Row α) (r : Row α) :
    rowMatches cols (filters.filter (fun p => cols.contains p.1)) r
      = rowMatches cols filters r := by
  induction filters with
  | nil => rfl
  | cons p t ih =>
    by_cases hp : cols.contains p.1 = true
    · simp only [rowMatches, List.filter_cons, hp, if_true, List.all_cons] at ih ⊢
      rw [ih]
    · simp only [rowMatches, List.filter_cons, hp, if_false, List.all_cons,
        Bool.false_eq_true] at ih ⊢
      rw [ih]
      simp [show cols.contains p.1 = false by simpa using hp]

/-- C4: with the backend reachable, `get_multi` returns the page
`take limit (drop skip ·)` of the rows matching every filter whose key is a
model column; hence at most `limit` rows, each satisfying every known filter;
unknown filter keys are ignored (filtering by the restriction of `filters` to
the model's columns gives the same result); with the backend unreachable the
result is the empty list, never an error. -/
theorem get_multi_page {α : Type} [DecidableEq α] (cols : List String)
    (db : SqlDB α) (skip limit : Nat) (filters : Row α) :
    (db.up = true →
      sqlGetMulti cols db skip limit filters
        = ((db.rows.filter (rowMatches cols filters)).drop skip).take limit) ∧
    (sqlGetMulti cols db skip limit filters).length ≤ limit ∧
    (∀ r ∈ sqlGetMulti cols db skip limit filters,
      ∀ p ∈ filters, cols.contains p.1 = true → lookupField r p.1 = some p.2) ∧
    sqlGetMulti cols db skip limit filters
      = sqlGetMulti cols db skip limit (filters.filter (fun p => cols.contains p.1)) ∧
    (db.up = false → sqlGetMulti cols db skip limit filters = []) := by
  refine ⟨?_, ?_, ?_, ?_, ?_⟩
  · intro hup; simp [sqlGetMulti, hup]
  · by_cases hup : db.up = true
    · simp only [sqlGetMulti, hup, if_true]
      rw [List.length_take]
      exact min_le_left _ _
    · simp [sqlGetMulti, show db.up = false by simpa using hup]
  · intro r hr p hp hcp
    by_cases hup : db.up = true
    · simp only [sqlGetMulti, hup, if_true] at hr
      have hr2 : r ∈ db.rows.filter (rowMatches cols filters) :=
        List.drop_subset _ _ (List.take_subset _ _ hr)
      have hmatch := (List.mem_filter.mp hr2).2
      have := List.all_eq_true.mp hmatch p hp
      simp only [hcp, Bool.not_true, Bool.false_or] at this
      exact of_decide_eq_true this
    · simp [sqlGetMulti, show db.up = false by simpa using hup] at hr
  · have hfun : rowMatches cols (filters.filter (fun p => cols.contains p.1))
        = rowMatches cols filters := by
      funext r; exact rowMatches_restrict cols filters r
    simp only [sqlGetMulti, hfun]
  · intro hdown; simp [sqlGetMulti, hdown]

/-- C4 witness: a three-row table paged with `skip = 0`, `limit = 2`, one
known filter key and one unknown filter key. -/
theorem get_multi_page_witness :
    (⟨[[("id", (1 : Int)), ("role", 0)], [("id", 2), ("role", 1)],
       [("id", 3), ("role", 0)]], true⟩ : SqlDB Int).up = true ∧
    sqlGetMulti ["id", "role"]
      ⟨[[("id", (1 : Int)), ("role", 0)], [("id", 2), ("role", 1)],
        [("id", 3), ("role", 0)]], true⟩ 0 2 [("role", 0), ("ghost", 9)]
      = ((([[("id", (1 : Int)), ("role", 0)], [("id", 2), ("role", 1)],
            [("id", 3), ("role", 0)]].filter
              (rowMatches ["id", "role"] [("role", 0), ("ghost", 9)])).drop 0).take 2) :=
  ⟨rfl,
   (get_multi_page ["id", "role"]
     ⟨[[("id", (1 : Int)), ("role", 0)], [("id", 2), ("role", 1)],
       [("id", 3), ("role", 0)]], true⟩ 0 2 [("role", 0), ("ghost", 9)]).1 rfl⟩

/-! ### C8: delete is a found-and-removed test, idempotent in effect -/

theorem removeFirstDoc_filter_eq_nil {α : Type} [DecidableEq α]
    (docs : List (Row α)) (id : α)
    (hm : (docs.filter (fun d => decide (docId d = some id))).length ≤ 1) :
    (removeFirstDoc docs id).filter (fun d => decide (docId d = some id)) = [] := by
  induction docs with
  | nil => rfl
  | cons d rest ih =>
    by_cases hd : docId d = some id
    · rw [List.filter_cons_of_pos (by simpa using hd)] at hm
      simp only [List.length_cons, Nat.add_le_add_iff_right, Nat.le_zero,
        List.length_eq_zero] at hm
      simpa [removeFirstDoc, hd] using hm
    · rw [List.filter_cons_of_neg (by simpa using hd)] at hm
      simp [removeFirstDoc, hd, List.filter_cons_of_neg, ih hm]

theorem sql_delete_spec {α : Type} [DecidableEq α] (db : SqlDB α) (id : α) :
    ((sqlDelete db id).1 = true ↔
      ∃ r ∈ db.rows, rowId r = some id ∧ r ∉ (sqlDelete db id).2.rows) ∧
    (sqlDelete (sqlDelete db id).2 id).1 = false := by
  by_cases hup : db.up = true
  case neg =>
    have hd : db.up = false := by simpa using hup
    have h1 : sqlDelete db id = (false, db) := by simp [sqlDelete, hd]
    refine ⟨?_, ?_⟩
    · rw [h1]
      simp only [Bool.false_eq_true, false_iff]
      rintro ⟨r, hr, -, habs⟩
      exact habs hr
    · rw [h1]; simp [sqlDelete, hd]
  case pos =>
    have h1 : sqlDelete db id =
        (db.rows.any (fun r => decide (rowId r = some id)),
         { db with rows := db.rows.filter (fun r => !decide (rowId r = some id)) }) := by
      simp [sqlDelete, hup]
    refine ⟨?_, ?_⟩
    · rw [h1]
      constructor
      · intro hany
        obtain ⟨r, hr, hdec⟩ := List.any_eq_true.mp hany
        refine ⟨r, hr, of_decide_eq_true hdec, ?_⟩
        intro hmem
        have := (List.mem_filter.mp hmem).2
        simp [hdec] at this
      · rintro ⟨r, hr, hid, -⟩
        exact List.any_eq_true.mpr ⟨r, hr, decide_eq_true hid⟩
    · rw [h1]
      simp only [sqlDelete, hup, if_true]
      rw [Bool.eq_false_iff]
      intro hany
      obtain ⟨r, hr, hdec⟩ := List.any_eq_true.mp hany
      have := (List.mem_filter.mp hr).2
      simp [hdec] at this

theorem mongo_delete_spec {α : Type} [DecidableEq α] (mdb : MongoColl α) (id : α)
    (hm : (mdb.docs.filter (fun d => decide (docId d = some id))).length ≤ 1) :
    ((mongoDelete mdb id).1 = true ↔
      ∃ d ∈ mdb.docs, docId d = some id ∧ d ∉ (mongoDelete mdb id).2.docs) ∧
    (mongoDelete (mongoDelete mdb id).2 id).1 = false := by
  by_cases hup : mdb.up = true
  case neg =>
    have hd : mdb.up = false := by simpa using hup
    have h1 : mongoDelete mdb id = (false, mdb) := by simp [mongoDelete, hd]
    refine ⟨?_, ?_⟩
    · rw [h1]
      simp only [Bool.false_eq_true, false_iff]
      rintro ⟨d, hd2, -, habs⟩
      exact habs hd2
    · rw [h1]; simp [mongoDelete, hd]
  case pos =>
    have h1 : mongoDelete mdb id =
        (mdb.docs.any (fun d => decide (docId d = some id)),
         { mdb with docs := removeFirstDoc mdb.docs id }) := by
      simp [mongoDelete, hup]
    have hnil := removeFirstDoc_filter_eq_nil mdb.docs id hm
    refine ⟨?_, ?_⟩
    · rw [h1]
      constructor
      · intro hany
        obtain ⟨d, hd2, hdec⟩ := List.any_eq_true.mp hany
        refine ⟨d, hd2, of_decide_eq_true hdec, ?_⟩
        intro hmem
        have : d ∈ (removeFirstDoc mdb.docs id).filter
            (fun d => decide (docId d = some id)) :=
          List.mem_filter.mpr ⟨hmem, hdec⟩
        rw [hnil] at this
        cases this
      · rintro ⟨d, hd2, hid, -⟩
        exact List.any_eq_true.mpr ⟨d, hd2, decide_eq_true hid⟩
    · rw [h1]
      simp only [mongoDelete, hup, if_true]
      rw [Bool.eq_false_iff]
      intro hany
      obtain ⟨d, hd2, hdec⟩ := List.any_eq_true.mp hany
      have : d ∈ (removeFirstDoc mdb.docs id).filter
          (fun d => decide (docId d = some id)) :=
        List.mem_filter.mpr ⟨hd2, hdec⟩
      rw [hnil] at this
      cases this

/-- C8: in both repositories `delete(id)` returns true exactly when a
row/document with that id existed and was removed by the call, and a second
`delete(id)` on the resulting state with no intervening create returns false.
(For the document store the hypothesis is Mongo's `_id` unique-index
invariant: at most one document carries the queried id.) -/
theorem delete_idempotent {α : Type} [DecidableEq α] (db : SqlDB α)
    (mdb : MongoColl α) (id : α)
    (hm : (mdb.docs.filter (fun d => decide (docId d = some id))).length ≤ 1) :
    ((sqlDelete db id).1 = true ↔
      ∃ r ∈ db.rows, rowId r = some id ∧ r ∉ (sqlDelete db id).2.rows) ∧
    (sqlDelete (sqlDelete db id).2 id).1 = false ∧
    ((mongoDelete mdb id).1 = true ↔
      ∃ d ∈ mdb.docs, docId d = some id ∧ d ∉ (mongoDelete mdb id).2.docs) ∧
    (mongoDelete (mongoDelete mdb id).2 id).1 = false :=
  ⟨(sql_delete_spec db id).1, (sql_delete_spec db id).2,
   (mongo_delete_spec mdb id hm).1, (mongo_delete_spec mdb id hm).2⟩

/-- C8 witness: a one-row table and a one-document collection; the first
delete returns true and removes the record, the second returns false. -/
theorem delete_idempotent_witness :
    (((⟨[[("_id", (5 : Int))]], true⟩ : MongoColl Int).docs.filter
        (fun d => decide (docId d = some 5))).length ≤ 1) ∧
    ((sqlDelete (⟨[[("id", (5 : Int))]], true⟩ : SqlDB Int) 5).1 = true ↔
      ∃ r ∈ (⟨[[("id", (5 : Int))]], true⟩ : SqlDB Int).rows, rowId r = some 5 ∧
        r ∉ (sqlDelete (⟨[[("id", (5 : Int))]], true⟩ : SqlDB Int) 5).2.rows) ∧
    (sqlDelete (sqlDelete (⟨[[("id", (5 : Int))]], true⟩ : SqlDB Int) 5).2 5).1
      = false ∧
    ((mongoDelete (⟨[[("_id", (5 : Int))]], true⟩ : MongoColl Int) 5).1 = true ↔
      ∃ d ∈ (⟨[[("_id", (5 : Int))]], true⟩ : MongoColl Int).docs,
        docId d = some 5 ∧
          d ∉ (mongoDelete (⟨[[("_id", (5 : Int))]], true⟩ : MongoColl Int) 5).2.docs) ∧
    (mongoDelete (mongoDelete (⟨[[("_id", (5 : Int))]], true⟩ : MongoColl Int) 5).2 5).1
      = false :=
  ⟨by decide,
   delete_idempotent (⟨[[("id", (5 : Int))]], true⟩ : SqlDB Int)
     (⟨[[("_id", (5 : Int))]], true⟩ : MongoColl Int) 5 (by decide)⟩

/-! ### C3: update is a partial update; backend failure collapses to absent -/

theorem lookupField_setField_self {α : Type} (r : Row α) (p : String × α) :
    lookupField (setField r p) p.1 = some p.2 := by
  unfold setField lookupField
  by_cases h : r.any (fun q => q.1 == p.1) = true
  · rw [if_pos h, List.find?_map]
    have h1 : ((fun q : String × α => q.1 == p.1) ∘
        (fun q : String × α => if q.1 == p.1 then p else q)) =
        fun q : String × α => q.1 == p.1 := by
      funext q
      by_cases hq : q.1 = p.1
      · simp [Function.comp, hq]
      · simp [Function.comp, hq]
    rw [h1]
    cases hfind : r.find? (fun q : String × α => q.1 == p.1) with
    | none =>
      rw [List.find?_eq_none] at hfind
      obtain ⟨q0, hq0, hk0⟩ := List.any_eq_true.mp h
      exact absurd hk0 (hfind q0 hq0)
    | some q1 =>
      have hk1 : q1.1 = p.1 := by simpa using List.find?_some hfind
      simp [hk1]
  · rw [if_neg h, List.find?_append]
    have h2 : r.find? (fun q : String × α => q.1 == p.1) = none := by
      rw [List.find?_eq_none]
      intro q hq hk
      exact h (List.any_eq_true.mpr ⟨q, hq, hk⟩)
    rw [h2]
    simp [List.find?]

theorem lookupField_setField_other {α : Type} (r : Row α) (p : String × α)
    (c : String) (hne : c ≠ p.1) :
    lookupField (setField r p) c = lookupField r c := by
  unfold setField lookupField
  by_cases h : r.any (fun q => q.1 == p.1) = true
  · rw [if_pos h, List.find?_map]
    have h1 : ((fun q : String × α => q.1 == c) ∘
        (fun q : String × α => if q.1 == p.1 then p else q)) =
        fun q : String × α => q.1 == c := by
      funext q
      by_cases hq : q.1 = p.1
      · simp [Function.comp, hq]
      · simp [Function.comp, hq]
    rw [h1]
    cases hfind : r.find? (fun q : String × α => q.1 == c) with
    | none => simp
    | some q1 =>
      have hk1 : q1.1 = c := by simpa using List.find?_some hfind
      have hne1 : ¬q1.1 = p.1 := by rw [hk1]; exact hne
      simp [hne1]
  · rw [if_neg h, List.find?_append]
    have hb : (p.1 == c) = false := beq_eq_false_iff_ne.mpr (fun hh => hne hh.symm)
    have h2 : (([p] : Row α).find? (fun q => q.1 == c)) = none := by
      simp [List.find?, hb]
    rw [h2]
    simp

theorem lookupField_setFields_of_all_ne {α : Type} (obj_data : Row α) (c : String)
    (h : obj_data.all (fun p => !(p.1 == c)) = true) :
    ∀ r : Row α, lookupField (setFields r obj_data) c = lookupField r c := by
  induction obj_data with
  | nil => intro r; rfl
  | cons p t ih =>
    intro r
    rw [List.all_cons] at h
    obtain ⟨hp, ht⟩ := Bool.and_eq_true_iff.mp h
    have hpc : ¬p.1 = c := by simpa using hp
    show lookupField (setFields (setField r p) t) c = lookupField r c
    rw [ih ht (setField r p), lookupField_setField_other r p c
      (fun hcc => hpc hcc.symm)]

theorem lookupField_setFields_mem {α : Type} (obj_data : Row α)
    (hnd : (obj_data.map Prod.fst).Nodup) :
    ∀ r : Row α, ∀ p ∈ obj_data, lookupField (setFields r obj_data) p.1 = some p.2 := by
  induction obj_data with
  | nil => intro r p hp; cases hp
  | cons q t ih =>
    intro r p hp
    rw [List.map_cons, List.nodup_cons] at hnd
    obtain ⟨hq, ht⟩ := hnd
    rcases List.mem_cons.mp hp with rfl | hpt
    · show lookupField (setFields (setField r p) t) p.1 = some p.2
      have hall : t.all (fun x => !(x.1 == p.1)) = true := by
        rw [List.all_eq_true]
        intro x hx
        by_cases hxp : x.1 = p.1
        · exact absurd (hxp ▸ List.mem_map_of_mem Prod.fst hx) hq
        · simp [hxp]
      rw [lookupField_setFields_of_all_ne t p.1 hall (setField r p),
        lookupField_setField_self]
    · exact ih ht (setField r q) p hpt

theorem hasDupIds_map_of_preserve {α : Type} [DecidableEq α] (f : Row α → Row α)
    (hf : ∀ r, rowId (f r) = rowId r) (l : List (Row α)) :
    hasDupIds (l.map f) = hasDupIds l := by
  have hids : ∀ t : List (Row α), idsOf (t.map f) = idsOf t := by
    intro t
    unfold idsOf
    rw [List.filterMap_map]
    congr 1
    funext r
    exact hf r
  induction l with
  | nil => rfl
  | cons r t ih =>
    simp only [List.map_cons, hasDupIds]
    rw [hf r, hids t, ih]

/-- C3 counterexample: the table holds the row `{id: 1, name: 7}` and the
backend is unreachable; `update(1, {name: 9})` rolls back and returns the
absent result `(none, unchanged table)` — by its very type it cannot raise —
whereas the claim requires a raised `PersistenceError` on backend failure
(`BaseRepository.update` swallows the exception after rollback and returns
`None`, unlike `create`, which re-raises). -/
theorem update_failure_counterexample :
    sqlUpdate ["id", "name"] (⟨[[("id", (1 : Int)), ("name", 7)]], false⟩ : SqlDB Int)
        1 [("name", 9)]
      = (none, ⟨[[("id", (1 : Int)), ("name", 7)]], false⟩) := rfl

/-- C3 amended: `update(id, fields)` over model columns returns the matched
row with exactly the supplied fields changed (other fields untouched) and
commits that row, returns `absent` when no row has the id, and on backend
failure rolls back and returns `absent` — the write error is collapsed to an
absent result, indistinguishable from a missing id, and never raised. -/
theorem update_fields_spec {α : Type} [DecidableEq α] (cols : List String)
    (db : SqlDB α) (id : α) (obj_data : Row α)
    (hc : obj_data.all (fun p => cols.contains p.1) = true)
    (hnoid : obj_data.all (fun p => !(p.1 == "id")) = true)
    (hfnd : (obj_data.map Prod.fst).Nodup) :
    (db.up = false → sqlUpdate cols db id obj_data = (none, db)) ∧
    (db.up = true →
      (db.rows.filter (fun r => decide (rowId r = some id)) = [] →
        sqlUpdate cols db id obj_data = (none, db)) ∧
      (∀ r, db.rows.filter (fun r => decide (rowId r = some id)) = [r] →
        (sqlUpdate cols db id obj_data).1 = some (setFields r obj_data) ∧
        (sqlUpdate cols db id obj_data).2.rows
          = db.rows.map
              (fun r2 => if rowId r2 = some id then setFields r2 obj_data else r2) ∧
        (∀ p ∈ obj_data, lookupField (setFields r obj_data) p.1 = some p.2) ∧
        (∀ c : String, obj_data.all (fun p => !(p.1 == c)) = true →
          lookupField (setFields r obj_data) c = lookupField r c))) := by
  have hpreserve : ∀ r2 : Row α,
      rowId (if rowId r2 = some id then setFields r2 obj_data else r2) = rowId r2 := by
    intro r2
    by_cases h2 : rowId r2 = some id
    · rw [if_pos h2]
      exact lookupField_setFields_of_all_ne obj_data "id" hnoid r2
    · rw [if_neg h2]
  have hguard : (hasDupIds (db.rows.map
        (fun r2 => if rowId r2 = some id then setFields r2 obj_data else r2)) &&
      !hasDupIds db.rows) = false := by
    rw [hasDupIds_map_of_preserve _ hpreserve]
    exact Bool.and_not_self _
  constructor
  · intro hdown
    unfold sqlUpdate
    rw [hdown]
    rfl
  · intro hup
    constructor
    · intro hempty
      unfold sqlUpdate
      rw [hup, hc]
      simp only [Bool.not_true, Bool.false_eq_true, if_false, hguard, hempty,
        List.map_nil]
    · intro r hone
      have heq : sqlUpdate cols db id obj_data =
          (some (setFields r obj_data),
           { db with rows := (db.rows.map (fun r2 =>
              if rowId r2 = some id then setFields r2 obj_data else r2)) }) := by
        unfold sqlUpdate
        rw [hup, hc]
        simp only [Bool.not_true, Bool.false_eq_true, if_false, hguard, hone,
          List.map_cons, List.map_nil]
      rw [heq]
      exact ⟨rfl, rfl, lookupField_setFields_mem obj_data hfnd r,
        fun c hcne => lookupField_setFields_of_all_ne obj_data c hcne r⟩

/-- C3 amended witness: updating `name` of the row `{id: 1, name: 7}` in a
reachable one-row table yields the row `{id: 1, name: 9}`. -/
theorem update_fields_spec_witness :
    ((([("name", (9 : Int))] : Row Int).all (fun p => ["id", "name"].contains p.1))
        = true ∧
     (([("name", (9 : Int))] : Row Int).all (fun p => !(p.1 == "id"))) = true) ∧
    (sqlUpdate ["id", "name"] (⟨[[("id", (1 : Int)), ("name", 7)]], true⟩ : SqlDB Int)
        1 [("name", 9)]).1
      = some (setFields [("id", (1 : Int)), ("name", 7)] [("name", 9)]) :=
  ⟨⟨by decide, by decide⟩,
   (((update_fields_spec ["id", "name"]
       (⟨[[("id", (1 : Int)), ("name", 7)]], true⟩ : SqlDB Int) 1 [("name", 9)]
       (by decide) (by decide) (by decide)).2 rfl).2
     [("id", (1 : Int)), ("name", 7)] (by decide)).1⟩

/-! ### C2: fixed-window rate limiting -/

theorem list_map_id_of {β : Type} (l : List β) (f : β → β) (h : ∀ e ∈ l, f e = e) :
    l.map f = l := by
  induction l with
  | nil => rfl
  | cons a t ih =>
    rw [List.map_cons, h a (List.mem_cons_self a t),
      ih (fun e he => h e (List.mem_cons_of_mem a he))]

theorem find?_fresh_none (l : List Entry) (key : String) (t : Nat)
    (h : l.all (fun e => !(e.key == key)) = true) :
    l.find? (fun e => e.key == key && e.live t) = none := by
  rw [List.find?_eq_none]
  intro e he
  have hk : (e.key == key) = false := by simpa using List.all_eq_true.mp h e he
  simp [hk]

theorem any_fresh_false (l : List Entry) (key : String)
    (h : l.all (fun e => !(e.key == key)) = true) :
    l.any (fun e => e.key == key) = false := by
  cases hx : l.any (fun e => e.key == key) with
  | false => rfl
  | true =>
    obtain ⟨e, he, hk⟩ := List.any_eq_true.mp hx
    have h2 := List.all_eq_true.mp h e he
    rw [hk] at h2
    simp at h2

/-- A fresh key is created at count 1 and immediately given the window TTL. -/
theorem increment_fresh (st : RedisState) (t0 window : Nat) (key : String)
    (hup : st.up = true)
    (hfresh : st.store.all (fun e => !(e.key == key)) = true) :
    increment_rate_limit st t0 key window
      = (1, ⟨st.store ++ [⟨key, .ofJson (.num 1), some (t0 + window)⟩], true⟩) := by
  have hany := any_fresh_false st.store key hfresh
  have hincr : redisIncr st t0 key
      = .ok (1, ⟨st.store ++ [⟨key, .ofJson (.num 1), none⟩], true⟩) := by
    unfold redisIncr storeSet
    rw [hup, find?_fresh_none st.store key t0 hfresh, hany]
    rfl
  have hfind2 : (st.store ++ [(⟨key, .ofJson (.num 1), none⟩ : Entry)]).find?
      (fun e => e.key == key && e.live t0) = some ⟨key, .ofJson (.num 1), none⟩ := by
    rw [List.find?_append, find?_fresh_none st.store key t0 hfresh]
    simp [List.find?, Entry.live]
  have hany2 : (st.store ++ [(⟨key, .ofJson (.num 1), none⟩ : Entry)]).any
      (fun e => e.key == key) = true := by
    rw [List.any_append]
    simp
  have hmap : (st.store ++ [(⟨key, .ofJson (.num 1), none⟩ : Entry)]).map
      (fun e => if e.key == key
        then (⟨key, .ofJson (.num 1), some (t0 + window)⟩ : Entry) else e)
      = st.store ++ [⟨key, .ofJson (.num 1), some (t0 + window)⟩] := by
    rw [List.map_append]
    congr 1
    · apply list_map_id_of
      intro e he
      have hk : (e.key == key) = false := by
        simpa using List.all_eq_true.mp hfresh e he
      simp [hk]
    · simp
  have hexp : redisExpire ⟨st.store ++ [⟨key, .ofJson (.num 1), none⟩], true⟩
      t0 key window
      = .ok (true, ⟨st.store ++ [⟨key, .ofJson (.num 1), some (t0 + window)⟩], true⟩) := by
    unfold redisExpire storeSet
    simp only [hfind2, hany2, hmap]
    simp
  unfold increment_rate_limit
  simp only [hincr, hexp]
  rfl

/-- A live counter at `k ≥ 1` is incremented in place, keeping its expiry
(no `EXPIRE` is issued since the post-increment count exceeds 1). -/
theorem increment_live (base : List Entry) (key : String) (window t0 t : Nat)
    (k : Int)
    (hbase : base.all (fun e => !(e.key == key)) = true)
    (hk : 1 ≤ k) (ht : t < t0 + window) :
    increment_rate_limit ⟨base ++ [⟨key, .ofJson (.num k), some (t0 + window)⟩], true⟩
        t key window
      = (k + 1, ⟨base ++ [⟨key, .ofJson (.num (k + 1)), some (t0 + window)⟩], true⟩) := by
  have hlive : Entry.live t ⟨key, .ofJson (.num k), some (t0 + window)⟩ = true := by
    simp [Entry.live]
    omega
  have hfind : (base ++ [(⟨key, .ofJson (.num k), some (t0 + window)⟩ : Entry)]).find?
      (fun e => e.key == key && e.live t)
      = some ⟨key, .ofJson (.num k), some (t0 + window)⟩ := by
    rw [List.find?_append, find?_fresh_none base key t hbase]
    simp [List.find?, hlive]
  have hany2 : ((base ++ [(⟨key, .ofJson (.num k), some (t0 + window)⟩ : Entry)]).any
      (fun e => e.key == key)) = true := by
    rw [List.any_append]
    simp
  have hmap : (base ++ [(⟨key, .ofJson (.num k), some (t0 + window)⟩ : Entry)]).map
      (fun e => if e.key == key
        then (⟨key, .ofJson (.num (k + 1)), some (t0 + window)⟩ : Entry) else e)
      = base ++ [⟨key, .ofJson (.num (k + 1)), some (t0 + window)⟩] := by
    rw [List.map_append]
    congr 1
    · apply list_map_id_of
      intro e he
      have hke : (e.key == key) = false := by
        simpa using List.all_eq_true.mp hbase e he
      simp [hke]
    · simp
  have hincr : redisIncr
      ⟨base ++ [⟨key, .ofJson (.num k), some (t0 + window)⟩], true⟩ t key
      = .ok (k + 1, ⟨base ++ [⟨key, .ofJson (.num (k + 1)), some (t0 + window)⟩], true⟩) := by
    unfold redisIncr storeSet
    simp only [hfind, hany2, hmap]
    simp
  have hne : ((k + 1 : Int) == 1) = false := beq_eq_false_iff_ne.mpr (by omega)
  unfold increment_rate_limit
  simp only [hincr, hne]
  rfl

/-- An expired counter behaves like a fresh key: `INCR` recreates it at 1 and
the window TTL is set anew. -/
theorem increment_after_expiry (base : List Entry) (key : String)
    (window t2 texp : Nat) (v : Stored)
    (hbase : base.all (fun e => !(e.key == key)) = true)
    (ht2 : texp ≤ t2) :
    increment_rate_limit ⟨base ++ [⟨key, v, some texp⟩], true⟩ t2 key window
      = (1, ⟨base ++ [⟨key, .ofJson (.num 1), some (t2 + window)⟩], true⟩) := by
  have hdead : Entry.live t2 ⟨key, v, some texp⟩ = false := by
    simp [Entry.live]
    omega
  have hfind : (base ++ [(⟨key, v, some texp⟩ : Entry)]).find?
      (fun e => e.key == key && e.live t2) = none := by
    rw [List.find?_append, find?_fresh_none base key t2 hbase]
    simp [List.find?, hdead]
  have hany2 : ((base ++ [(⟨key, v, some texp⟩ : Entry)]).any
      (fun e => e.key == key)) = true := by
    rw [List.any_append]
    simp
  have hmap1 : (base ++ [(⟨key, v, some texp⟩ : Entry)]).map
      (fun e => if e.key == key then (⟨key, .ofJson (.num 1), none⟩ : Entry) else e)
      = base ++ [⟨key, .ofJson (.num 1), none⟩] := by
    rw [List.map_append]
    congr 1
    · apply list_map_id_of
      intro e he
      have hke : (e.key == key) = false := by
        simpa using List.all_eq_true.mp hbase e he
      simp [hke]
    · simp
  have hincr : redisIncr ⟨base ++ [⟨key, v, some texp⟩], true⟩ t2 key
      = .ok (1, ⟨base ++ [⟨key, .ofJson (.num 1), none⟩], true⟩) := by
    unfold redisIncr storeSet
    simp only [hfind, hany2, hmap1]
    simp
  have hfind2 : (base ++ [(⟨key, .ofJson (.num 1), none⟩ : Entry)]).find?
      (fun e => e.key == key && e.live t2) = some ⟨key, .ofJson (.num 1), none⟩ := by
    rw [List.find?_append, find?_fresh_none base key t2 hbase]
    simp [List.find?, Entry.live]
  have hany3 : ((base ++ [(⟨key, .ofJson (.num 1), none⟩ : Entry)]).any
      (fun e => e.key == key)) = true := by
    rw [List.any_append]
    simp
  have hmap2 : (base ++ [(⟨key, .ofJson (.num 1), none⟩ : Entry)]).map
      (fun e => if e.key == key
        then (⟨key, .ofJson (.num 1), some (t2 + window)⟩ : Entry) else e)
      = base ++ [⟨key, .ofJson (.num 1), some (t2 + window)⟩] := by
    rw [List.map_append]
    congr 1
    · apply list_map_id_of
      intro e he
      have hke : (e.key == key) = false := by
        simpa using List.all_eq_true.mp hbase e he
      simp [hke]
    · simp
  have hexp : redisExpire ⟨base ++ [⟨key, .ofJson (.num 1), none⟩], true⟩ t2 key window
      = .ok (true, ⟨base ++ [⟨key, .ofJson (.num 1), some (t2 + window)⟩], true⟩) := by
    unfold redisExpire storeSet
    simp only [hfind2, hany3, hmap2]
    simp
  unfold increment_rate_limit
  simp only [hincr, hexp]
  rfl

/-- Test harness: issue `increment_rate_limit` once per listed time, threading
the state, collecting the returned counts in order. -/
def rate_limit_calls (key : String) (window : Nat) :
    RedisState → List Nat → List Int × RedisState
  | st, [] => ([], st)
  | st, t :: ts =>
    let r1 := increment_rate_limit st t key window
    let rr := rate_limit_calls key window r1.2 ts
    (r1.1 :: rr.1, rr.2)

theorem rate_calls_steady (key : String) (window t0 : Nat) (base : List Entry)
    (hbase : base.all (fun e => !(e.key == key)) = true) :
    ∀ (times : List Nat) (k : Int), 1 ≤ k →
      (∀ t ∈ times, t < t0 + window) →
      rate_limit_calls key window
        ⟨base ++ [⟨key, .ofJson (.num k), some (t0 + window)⟩], true⟩ times
      = ((List.range times.length).map (fun i : Nat => k + 1 + (i : Int)),
         ⟨base ++ [⟨key, .ofJson (.num (k + times.length)), some (t0 + window)⟩],
          true⟩) := by
  intro times
  induction times with
  | nil =>
    intro k hk ht
    simp [rate_limit_calls]
  | cons t ts ih =>
    intro k hk ht
    have hstep := increment_live base key window t0 t k hbase hk
      (ht t (List.mem_cons_self t ts))
    have hrest := ih (k + 1) (by omega) (fun u hu => ht u (List.mem_cons_of_mem t hu))
    simp only [rate_limit_calls, hstep, hrest, Prod.mk.injEq]
    refine ⟨?_, ?_⟩
    · rw [List.length_cons, List.range_succ_eq_map, List.map_cons, List.map_map]
      simp only [List.cons.injEq]
      refine ⟨by push_cast; ring, ?_⟩
      apply List.map_congr_left
      intro i hi
      simp only [Function.comp]
      push_cast
      ring
    · have hlen : k + 1 + (ts.length : Int) = k + ((ts.length + 1 : Nat) : Int) := by
        push_cast
        ring
      rw [List.length_cons, ← hlen]

/-- C2: `increment_rate_limit(key, window)` performs one backend-atomic
`INCR` (a single `redisIncr` transition) and returns the post-increment count.
The TTL is set to `window` exactly when that count is 1: a fresh key is
created at 1 with expiry `now + window`; a live counter at `k ≥ 1` becomes
`k + 1` with its expiry untouched.  Consequently the call at `t0` followed by
calls at times inside `[t0, t0 + window)` returns 1, 2, …, N in order; a call
at or after `t0 + window` finds the key expired and returns 1 again; and a
backend failure returns 0 with the state unchanged. -/
theorem rate_limit_window (st st2 : RedisState) (key : String)
    (window t0 t2 t3 now : Nat) (times : List Nat) (base2 : List Entry) (k : Int)
    (hup : st.up = true)
    (hfresh : st.store.all (fun e => !(e.key == key)) = true)
    (htimes : ∀ t ∈ times, t < t0 + window)
    (ht2 : t0 + window ≤ t2)
    (hdown : st2.up = false)
    (hbase2 : base2.all (fun e => !(e.key == key)) = true)
    (hk : 1 ≤ k) (ht3 : t3 < t0 + window) :
    increment_rate_limit st t0 key window
      = (1, ⟨st.store ++ [⟨key, .ofJson (.num 1), some (t0 + window)⟩], true⟩) ∧
    increment_rate_limit
        ⟨base2 ++ [⟨key, .ofJson (.num k), some (t0 + window)⟩], true⟩ t3 key window
      = (k + 1, ⟨base2 ++ [⟨key, .ofJson (.num (k + 1)), some (t0 + window)⟩], true⟩) ∧
    (rate_limit_calls key window st (t0 :: times)).1
      = (List.range (times.length + 1)).map (fun i : Nat => 1 + (i : Int)) ∧
    (increment_rate_limit (rate_limit_calls key window st (t0 :: times)).2
        t2 key window).1 = 1 ∧
    increment_rate_limit st2 now key window = (0, st2) := by
  have hfirst := increment_fresh st t0 window key hup hfresh
  have hsteady := rate_calls_steady key window t0 st.store hfresh times 1 le_rfl htimes
  have hcalls : rate_limit_calls key window st (t0 :: times)
      = (1 :: (List.range times.length).map (fun i : Nat => 1 + 1 + (i : Int)),
         ⟨st.store ++ [⟨key, .ofJson (.num (1 + times.length)), some (t0 + window)⟩],
          true⟩) := by
    simp only [rate_limit_calls, hfirst, hsteady]
  refine ⟨hfirst, increment_live base2 key window t0 t3 k hbase2 hk ht3, ?_, ?_, ?_⟩
  · rw [hcalls, List.range_succ_eq_map, List.map_cons, List.map_map]
    simp only [List.cons.injEq]
    refine ⟨by push_cast; try ring, ?_⟩
    apply List.map_congr_left
    intro i hi
    simp only [Function.comp]
    push_cast
    ring
  · rw [hcalls]
    rw [increment_after_expiry st.store key window t2 (t0 + window)
      (.ofJson (.num (1 + times.length))) hfresh ht2]
  · simp [increment_rate_limit, redisIncr, hdown]

/-- C2 witness: on an empty reachable backend, calls at times 5 and 10 with a
60-second window return 1 then 2; a call at 65 returns 1 again; on a down
backend the call returns 0. -/
theorem rate_limit_window_witness :
    ((⟨[], true⟩ : RedisState).up = true ∧ (∀ t ∈ [10], t < 5 + 60) ∧ 5 + 60 ≤ 65 ∧
      (⟨[], false⟩ : RedisState).up = false ∧ (1 : Int) ≤ 1 ∧ 30 < 5 + 60) ∧
    increment_rate_limit ⟨[], true⟩ 5 "k" 60
      = (1, ⟨[] ++ [⟨"k", .ofJson (.num 1), some (5 + 60)⟩], true⟩) ∧
    increment_rate_limit ⟨[] ++ [⟨"k", .ofJson (.num 1), some (5 + 60)⟩], true⟩
        30 "k" 60
      = (1 + 1, ⟨[] ++ [⟨"k", .ofJson (.num (1 + 1)), some (5 + 60)⟩], true⟩) ∧
    (rate_limit_calls "k" 60 ⟨[], true⟩ (5 :: [10])).1
      = (List.range ([10].length + 1)).map (fun i : Nat => 1 + (i : Int)) ∧
    (increment_rate_limit (rate_limit_calls "k" 60 ⟨[], true⟩ (5 :: [10])).2
        65 "k" 60).1 = 1 ∧
    increment_rate_limit ⟨[], false⟩ 0 "k" 60 = (0, ⟨[], false⟩) :=
  ⟨⟨rfl, by decide, by decide, rfl, by decide, by decide⟩,
   rate_limit_window ⟨[], true⟩ ⟨[], false⟩ "k" 60 5 65 30 0 [10] [] 1
     rfl rfl (by decide) (by decide) rfl rfl (by decide) (by decide)⟩

/-! ### Glob-pattern and split lemmas (for the scan-based operations) -/

/-- Characters that the glob matcher treats literally in every position. -/
def plainChars (p : List Char) : Bool :=
  p.all (fun c => !(c == '*') && !(c == '?'))

theorem globAux_irrel : ∀ (f1 : Nat) (p s : List Char) (f2 : Nat),
    p.length + s.length < f1 → p.length + s.length < f2 →
    globAux f1 p s = globAux f2 p s := by
  intro f1
  induction f1 with
  | zero => intro p s f2 h1 _; exact absurd h1 (Nat.not_lt_zero _)
  | succ f ih =>
    intro p s f2 h1 h2
    cases f2 with
    | zero => exact absurd h2 (Nat.not_lt_zero _)
    | succ g =>
      cases p with
      | nil => rfl
      | cons c ps =>
        simp only [globAux]
        by_cases hc : c = '*'
        · rw [if_pos hc, if_pos hc]
          have b1 : ps.length + s.length < f := by
            simp only [List.length_cons] at h1; omega
          have b2 : ps.length + s.length < g := by
            simp only [List.length_cons] at h2; omega
          rw [ih ps s g b1 b2]
          congr 1
          cases s with
          | nil => rfl
          | cons d s2 =>
            simp only []
            have b3 : (c :: ps).length + s2.length < f := by
              simp only [List.length_cons] at h1 ⊢; omega
            have b4 : (c :: ps).length + s2.length < g := by
              simp only [List.length_cons] at h2 ⊢; omega
            exact ih (c :: ps) s2 g b3 b4
        · rw [if_neg hc, if_neg hc]
          cases s with
          | nil => rfl
          | cons d s2 =>
            simp only []
            have b3 : ps.length + s2.length < f := by
              simp only [List.length_cons] at h1; omega
            have b4 : ps.length + s2.length < g := by
              simp only [List.length_cons] at h2; omega
            rw [ih ps s2 g b3 b4]

theorem globMatch_nil (s : List Char) : globMatch [] s = s.isEmpty := rfl

/-- The defining recurrence of the matcher, free of the fuel bound. -/
theorem globMatch_cons (c : Char) (ps s : List Char) :
    globMatch (c :: ps) s =
      (if c = '*' then
        globMatch ps s ||
          (match s with
           | [] => false
           | _ :: s2 => globMatch (c :: ps) s2)
      else
        match s with
        | [] => false
        | d :: s2 => (if c = '?' then true else c = d) && globMatch ps s2) := by
  simp only [globMatch, globAux, List.length_cons]
  by_cases hc : c = '*'
  · rw [if_pos hc, if_pos hc]
    rw [globAux_irrel (ps.length + 1 + s.length) ps s (ps.length + s.length + 1)
      (by omega) (by omega)]
    congr 1
    cases s with
    | nil => rfl
    | cons d s2 =>
      show globAux (ps.length + 1 + (d :: s2).length) (c :: ps) s2
        = globMatch (c :: ps) s2
      exact globAux_irrel _ (c :: ps) s2 _
        (by simp only [List.length_cons]; omega)
        (by simp only [List.length_cons]; omega)
  · rw [if_neg hc, if_neg hc]
    cases s with
    | nil => rfl
    | cons d s2 =>
      show ((if c = '?' then true else decide (c = d))
            && globAux (ps.length + 1 + (d :: s2).length) ps s2)
          = ((if c = '?' then true else decide (c = d)) && globMatch ps s2)
      congr 1
      exact globAux_irrel (ps.length + 1 + (d :: s2).length) ps s2
        (ps.length + s2.length + 1)
        (by simp only [List.length_cons]; omega) (by omega)

theorem globMatch_star (s : List Char) : globMatch ['*'] s = true := by
  induction s with
  | nil => rfl
  | cons c s2 ih =>
    rw [globMatch_cons]
    simp [globMatch_nil, ih]

theorem globMatch_plain (p : List Char) (hp : plainChars p = true) :
    ∀ s, globMatch p s = true ↔ p = s := by
  induction p with
  | nil =>
    intro s
    rw [globMatch_nil]
    cases s <;> simp
  | cons c ps ih =>
    intro s
    unfold plainChars at hp
    rw [List.all_cons] at hp
    obtain ⟨hc, hps⟩ := Bool.and_eq_true_iff.mp hp
    have hcs : ¬c = '*' := by simpa using (Bool.and_eq_true_iff.mp hc).1
    have hcq : ¬c = '?' := by simpa using (Bool.and_eq_true_iff.mp hc).2
    rw [globMatch_cons, if_neg hcs]
    cases s with
    | nil => simp
    | cons d s2 =>
      simp only [if_neg hcq]
      constructor
      · intro h
        obtain ⟨hcd, hrest⟩ := Bool.and_eq_true_iff.mp h
        rw [of_decide_eq_true hcd, (ih hps s2).mp hrest]
      · intro h
        rw [List.cons.injEq] at h
        obtain ⟨rfl, rfl⟩ := h
        simp [(ih hps _).mpr rfl]

theorem globMatch_prefix_star (pre : List Char) (hp : plainChars pre = true) :
    ∀ s, globMatch (pre ++ ['*']) s = true ↔ pre <+: s := by
  induction pre with
  | nil =>
    intro s
    simp [globMatch_star]
  | cons c ps ih =>
    intro s
    unfold plainChars at hp
    rw [List.all_cons] at hp
    obtain ⟨hc, hps⟩ := Bool.and_eq_true_iff.mp hp
    have hcs : ¬c = '*' := by simpa using (Bool.and_eq_true_iff.mp hc).1
    have hcq : ¬c = '?' := by simpa using (Bool.and_eq_true_iff.mp hc).2
    rw [List.cons_append, globMatch_cons, if_neg hcs]
    cases s with
    | nil => simp
    | cons d s2 =>
      simp only [if_neg hcq]
      rw [List.cons_prefix_cons]
      constructor
      · intro h
        obtain ⟨hcd, hrest⟩ := Bool.and_eq_true_iff.mp h
        exact ⟨of_decide_eq_true hcd, (ih hps s2).mp hrest⟩
      · rintro ⟨rfl, hpref⟩
        simp [(ih hps s2).mpr hpref]

theorem splitOnChar_ne_nil (sep : Char) (l : List Char) : splitOnChar sep l ≠ [] := by
  cases l with
  | nil => simp [splitOnChar]
  | cons c rest =>
    unfold splitOnChar
    by_cases hc : c = sep
    · simp [hc]
    · simp only [hc, if_false]
      cases splitOnChar sep rest <;> simp

theorem splitOnChar_append (sep : Char) :
    ∀ l1 l2, splitOnChar sep (l1 ++ sep :: l2)
      = splitOnChar sep l1 ++ splitOnChar sep l2 := by
  intro l1
  induction l1 with
  | nil =>
    intro l2
    simp [splitOnChar]
  | cons c t ih =>
    intro l2
    rw [List.cons_append]
    show splitOnChar sep (c :: (t ++ sep :: l2))
      = splitOnChar sep (c :: t) ++ splitOnChar sep l2
    simp only [splitOnChar]
    by_cases hc : c = sep
    · rw [if_pos hc, if_pos hc, ih l2]
      rfl
    · rw [if_neg hc, if_neg hc, ih l2]
      obtain ⟨h, t2, heq⟩ := List.exists_cons_of_ne_nil (splitOnChar_ne_nil sep t)
      rw [heq]
      rfl

theorem splitOnChar_no_sep (sep : Char) :
    ∀ l, l.all (fun c => !(c == sep)) = true → splitOnChar sep l = [l] := by
  intro l
  induction l with
  | nil => intro _; rfl
  | cons c t ih =>
    intro h
    rw [List.all_cons] at h
    obtain ⟨hc, ht⟩ := Bool.and_eq_true_iff.mp h
    have hcs : ¬c = sep := by simpa using hc
    unfold splitOnChar
    rw [ih ht]
    simp [hcs]

/-- On a key of the form `bin:status:{id}` with a colon-free id,
`key.split(":")[-1]` recovers the id. -/
theorem lastColonSegment_status (id : String)
    (h : id.data.all (fun c => !(c == ':')) = true) :
    lastColonSegment ("bin:status:" ++ id) = id := by
  unfold lastColonSegment
  have hdata : ("bin:status:" ++ id).data
      = ['b', 'i', 'n'] ++ ':' :: (['s', 't', 'a', 't', 'u', 's'] ++ ':' :: id.data) := by
    rw [String.data_append]
    rfl
  rw [hdata, splitOnChar_append, splitOnChar_append, splitOnChar_no_sep ':' id.data h]
  rfl

/-! ### C5: critical-bin listing -/

/-- The cache entry `cache_bin_status` writes for a bin id with a given fill
level. -/
def statusEntry (now : Nat) (p : String × Int) : Entry :=
  ⟨"bin:status:" ++ p.1, .ofJson (.obj [("fill_level", .num p.2)]),
   some (now + redis_cache_ttl)⟩

/-- Test harness: populate the cache through `cache_bin_status`, one call per
`(bin id, fill level)` pair. -/
def cache_statuses (st : RedisState) (now : Nat)
    (entries : List (String × Int)) : RedisState :=
  entries.foldl (fun s p => cache_bin_status s now p.1 [("fill_level", .num p.2)]) st

theorem string_append_right_inj (s a b : String) (h : s ++ a = s ++ b) : a = b := by
  have hd := congrArg String.data h
  rw [String.data_append, String.data_append] at hd
  exact String.ext (List.append_cancel_left hd)

theorem cache_statuses_shape (now : Nat) :
    ∀ (entries : List (String × Int)) (base : List Entry),
      (∀ p ∈ entries,
        base.all (fun e2 => !(e2.key == "bin:status:" ++ p.1)) = true) →
      (entries.map Prod.fst).Nodup →
      cache_statuses ⟨base, true⟩ now entries
        = ⟨base ++ entries.map (statusEntry now), true⟩ := by
  intro entries
  induction entries with
  | nil =>
    intro base hfree hnd
    simp [cache_statuses]
  | cons p t ih =>
    intro base hfree hnd
    rw [List.map_cons, List.nodup_cons] at hnd
    obtain ⟨hq, ht⟩ := hnd
    have hany : base.any (fun e2 => e2.key == "bin:status:" ++ p.1) = false :=
      any_fresh_false base _ (hfree p (List.mem_cons_self p t))
    have hstep : cache_bin_status ⟨base, true⟩ now p.1 [("fill_level", .num p.2)]
        = ⟨base ++ [statusEntry now p], true⟩ := by
      unfold cache_bin_status redisSetex storeSet statusEntry
      rw [hany]
      rfl
    have hfree2 : ∀ q ∈ t, (base ++ [statusEntry now p]).all
        (fun e2 => !(e2.key == "bin:status:" ++ q.1)) = true := by
      intro q hqt
      rw [List.all_append]
      have h1 := hfree q (List.mem_cons_of_mem p hqt)
      have hne : ¬("bin:status:" ++ p.1) = ("bin:status:" ++ q.1) := by
        intro hcontra
        exact hq ((string_append_right_inj _ _ _ hcontra) ▸
          List.mem_map_of_mem Prod.fst hqt)
      simp [h1, statusEntry, beq_eq_false_iff_ne.mpr hne]
    have := ih (base ++ [statusEntry now p]) hfree2 ht
    simp only [cache_statuses, List.foldl_cons] at this ⊢
    rw [hstep]
    rw [this, List.append_assoc]
    rfl

theorem find?_statusEntry (now : Nat) :
    ∀ (entries : List (String × Int)), (entries.map Prod.fst).Nodup →
      ∀ p ∈ entries,
        (entries.map (statusEntry now)).find?
            (fun e => e.key == ("bin:status:" ++ p.1) && e.live now)
          = some (statusEntry now p) := by
  intro entries
  induction entries with
  | nil => intro _ p hp; cases hp
  | cons q t ih =>
    intro hnd p hp
    rw [List.map_cons, List.nodup_cons] at hnd
    obtain ⟨hq, ht⟩ := hnd
    rw [List.map_cons]
    have hlive : (statusEntry now q).live now = true := by
      simp [statusEntry, Entry.live, redis_cache_ttl]
    rcases List.mem_cons.mp hp with rfl | hpt
    · have hpred : ((statusEntry now p).key == ("bin:status:" ++ p.1) &&
          (statusEntry now p).live now) = true := by
        simp [statusEntry, Entry.live, redis_cache_ttl]
      exact List.find?_cons_of_pos _ hpred
    · have hne : ¬("bin:status:" ++ q.1) = ("bin:status:" ++ p.1) := by
        intro hcontra
        exact hq ((string_append_right_inj _ _ _ hcontra) ▸
          List.mem_map_of_mem Prod.fst hpt)
      rw [List.find?_cons_of_neg]
      · exact ih ht p hpt
      · simp [statusEntry, beq_eq_false_iff_ne.mpr hne]

theorem critical_steps (st : RedisState) (now : Nat) (threshold : Int)
    (hup : st.up = true) :
    ∀ (sub : List (String × Int)) (bins : List String),
      (∀ p ∈ sub,
        st.store.find? (fun e => e.key == ("bin:status:" ++ p.1) && e.live now)
          = some (statusEntry now p)) →
      (∀ p ∈ sub, p.1.data.all (fun c => !(c == ':')) = true) →
      (sub.map (fun p => "bin:status:" ++ p.1)).foldl
          (critical_step st now threshold) (some bins)
        = some (bins ++ (sub.filter (fun p => decide (threshold < p.2))).map Prod.fst) := by
  intro sub
  induction sub with
  | nil =>
    intro bins _ _
    simp
  | cons p t ih =>
    intro bins hfind hcolon
    have hget : redisGet st now ("bin:status:" ++ p.1)
        = .ok (some (.ofJson (.obj [("fill_level", .num p.2)]))) := by
      unfold redisGet
      rw [hup, hfind p (List.mem_cons_self p t)]
      rfl
    have hstep : critical_step st now threshold (some bins) ("bin:status:" ++ p.1)
        = some (if threshold < p.2 then bins ++ [p.1] else bins) := by
      unfold critical_step
      rw [hget]
      simp only [Stored.truthy, jsonLoads, bin_is_critical, dictGet, pyGtInt,
        List.find?, if_true]
      by_cases hcrit : threshold < p.2
      · simp [hcrit, lastColonSegment_status p.1 (hcolon p (List.mem_cons_self p t))]
      · simp [hcrit]
    rw [List.map_cons, List.foldl_cons, hstep]
    by_cases hcrit : threshold < p.2
    · rw [if_pos hcrit,
        ih (bins ++ [p.1]) (fun q hqt => hfind q (List.mem_cons_of_mem p hqt))
          (fun q hqt => hcolon q (List.mem_cons_of_mem p hqt)),
        List.filter_cons_of_pos (by simpa using hcrit)]
      simp
    · rw [if_neg hcrit,
        ih bins (fun q hqt => hfind q (List.mem_cons_of_mem p hqt))
          (fun q hqt => hcolon q (List.mem_cons_of_mem p hqt)),
        List.filter_cons_of_neg (by simpa using hcrit)]

/-- C5 counterexample: the cache holds exactly one status entry, cached for
the entity `a:b` with fill level 90 > 80, yet `get_all_critical_bins` returns
`["b"]` — `key.split(":")[-1]` truncates an entity identifier containing a
colon, so the claim's "returns exactly the entity identifiers whose fill-level
exceeds 80" fails at this input. -/
theorem critical_bins_colon_counterexample :
    get_all_critical_bins
        (cache_bin_status ⟨[], true⟩ 0 "a:b" [("fill_level", .num 90)]) 0
      = ["b"] ∧ "b" ≠ "a:b" :=
  ⟨by decide, by decide⟩

/-- C5 amended: `get_all_critical_bins` scans every cached status key and
keeps the last colon-separated segment of each key whose entry's fill level
strictly exceeds 80; when entity identifiers are colon-free (so that segment
is the identifier) and distinct, it returns exactly the identifiers with fill
level > 80, in cache order; in particular over `bin-1 ↦ 90`, `bin-2 ↦ 50` it
returns exactly `["bin-1"]`. -/
theorem critical_bins_spec (now : Nat) (entries : List (String × Int))
    (hnd : (entries.map Prod.fst).Nodup)
    (hcolon : ∀ p ∈ entries, p.1.data.all (fun c => !(c == ':')) = true) :
    get_all_critical_bins (cache_statuses ⟨[], true⟩ now entries) now
      = (entries.filter (fun p => decide ((80 : Int) < p.2))).map Prod.fst ∧
    get_all_critical_bins
        (cache_statuses ⟨[], true⟩ 0 [("bin-1", 90), ("bin-2", 50)]) 0
      = ["bin-1"] := by
  constructor
  · have hshape := cache_statuses_shape now entries [] (fun p _ => rfl) hnd
    rw [hshape]
    have hkeys : redisKeys ⟨[] ++ entries.map (statusEntry now), true⟩ now
        "bin:status:*"
        = .ok (entries.map (fun p => "bin:status:" ++ p.1)) := by
      unfold redisKeys
      have hfilter : (([] ++ entries.map (statusEntry now)).filter
          (fun e => e.live now && globMatch "bin:status:*".data e.key.data))
          = entries.map (statusEntry now) := by
        rw [List.nil_append, List.filter_eq_self]
        intro e he
        obtain ⟨p, hp, rfl⟩ := List.mem_map.mp he
        have hlive : (statusEntry now p).live now = true := by
          simp [statusEntry, Entry.live, redis_cache_ttl]
        have hmatch : globMatch "bin:status:*".data (statusEntry now p).key.data
            = true := by
          have hpat : "bin:status:*".data = "bin:status:".data ++ ['*'] := by rfl
          have hkey : (statusEntry now p).key.data
              = "bin:status:".data ++ p.1.data := by
            simp [statusEntry]
          rw [hpat, hkey]
          exact (globMatch_prefix_star "bin:status:".data (by decide) _).mpr
            (List.prefix_append _ _)
        simp [hlive, hmatch]
      rw [hfilter, List.map_map]
      rfl
    unfold get_all_critical_bins get_all_critical_bins_at
    rw [hkeys]
    have hfind : ∀ p ∈ entries,
        (⟨[] ++ entries.map (statusEntry now), true⟩ : RedisState).store.find?
            (fun e => e.key == ("bin:status:" ++ p.1) && e.live now)
          = some (statusEntry now p) := by
      intro p hp
      rw [List.nil_append]
      exact find?_statusEntry now entries hnd p hp
    show (match (entries.map (fun p => "bin:status:" ++ p.1)).foldl
        (critical_step ⟨[] ++ entries.map (statusEntry now), true⟩ now 80)
        (some []) with
      | some bins => bins
      | none => []) = (entries.filter (fun p => decide ((80 : Int) < p.2))).map Prod.fst
    rw [critical_steps ⟨[] ++ entries.map (statusEntry now), true⟩ now 80 rfl
      entries [] hfind hcolon]
    rfl
  · decide

/-- C5 amended witness: the concrete two-bin cache of the claim, via the
general statement. -/
theorem critical_bins_spec_witness :
    ((([("bin-1", (90 : Int)), ("bin-2", 50)].map Prod.fst).Nodup) ∧
      (∀ p ∈ [("bin-1", (90 : Int)), ("bin-2", 50)],
        p.1.data.all (fun c => !(c == ':')) = true)) ∧
    get_all_critical_bins
        (cache_statuses ⟨[], true⟩ 0 [("bin-1", (90 : Int)), ("bin-2", 50)]) 0
      = ([("bin-1", (90 : Int)), ("bin-2", 50)].filter
          (fun p => decide ((80 : Int) < p.2))).map Prod.fst :=
  ⟨⟨by decide, by decide⟩,
   (critical_bins_spec 0 [("bin-1", (90 : Int)), ("bin-2", 50)]
     (by decide) (by decide)).1⟩

/-! ### C9: clearing one entity's cache keys -/

theorem nodup_key_inj (l : List Entry) (hnd : (l.map Entry.key).Nodup) :
    ∀ a ∈ l, ∀ b ∈ l, a.key = b.key → a = b := by
  induction l with
  | nil => intro a ha; cases ha
  | cons e t ih =>
    intro a ha b hb hk
    rw [List.map_cons, List.nodup_cons] at hnd
    obtain ⟨hknot, ht⟩ := hnd
    rcases List.mem_cons.mp ha with rfl | hat <;> rcases List.mem_cons.mp hb with rfl | hbt
    · rfl
    · exact absurd (hk ▸ List.mem_map_of_mem Entry.key hbt) hknot
    · exfalso
      apply hknot
      rw [← hk]
      exact List.mem_map_of_mem Entry.key hat
    · exact ih ht a hat b hbt hk

theorem string_beq_comm (a b : String) : (a == b) = (b == a) := by
  by_cases h : a = b
  · rw [h]
  · rw [beq_eq_false_iff_ne.mpr h, beq_eq_false_iff_ne.mpr (Ne.symm h)]

/-- A metacharacter-free pattern matches exactly its own text. -/
theorem globMatch_plain_beq (p : String) (hplain : plainChars p.data = true)
    (k : String) : globMatch p.data k.data = (k == p) := by
  rw [string_beq_comm]
  cases hbeq : (p == k) with
  | true =>
    have hpk : p = k := eq_of_beq hbeq
    rw [← hpk]
    exact (globMatch_plain p.data hplain p.data).mpr rfl
  | false =>
    have hne : ¬p = k := by
      intro h
      rw [h] at hbeq
      simp at hbeq
    cases hg : globMatch p.data k.data with
    | false => rfl
    | true => exact absurd (String.ext ((globMatch_plain p.data hplain k.data).mp hg)) hne

/-- A metacharacter-free prefix followed by `*` matches exactly the keys the
prefix starts. -/
theorem globMatch_prefix_beq (pre : String) (hplain : plainChars pre.data = true)
    (k : String) : globMatch (pre.data ++ ['*']) k.data = pre.data.isPrefixOf k.data := by
  cases hp : pre.data.isPrefixOf k.data with
  | true =>
    have := List.isPrefixOf_iff_prefix.mp hp
    exact (globMatch_prefix_star pre.data hplain k.data).mpr this
  | false =>
    cases hg : globMatch (pre.data ++ ['*']) k.data with
    | false => rfl
    | true =>
      have := (globMatch_prefix_star pre.data hplain k.data).mp hg
      rw [← List.isPrefixOf_iff_prefix] at this
      rw [hp] at this
      cases this

/-- One `KEYS`+`DEL` round of `clear_bin_cache` removes exactly the live
entries matching the pattern. -/
theorem clear_pattern_step_filter (st : RedisState) (now : Nat) (pattern : String)
    (hup : st.up = true)
    (hnd : (st.store.map Entry.key).Nodup) :
    clear_pattern_step now (.ok st) pattern
      = .ok ⟨st.store.filter
          (fun e => !(e.live now && globMatch pattern.data e.key.data)), st.up⟩ := by
  have hkeys : redisKeys st now pattern
      = .ok ((st.store.filter
          (fun e => e.live now && globMatch pattern.data e.key.data)).map Entry.key) := by
    unfold redisKeys
    rw [hup]
    rfl
  unfold clear_pattern_step
  show (match redisKeys st now pattern with
    | Except.error e => Except.error e
    | Except.ok keys =>
      if keys.isEmpty then Except.ok st
      else
        match redisDel st keys with
        | Except.error e => Except.error e
        | Except.ok (_, s2) => Except.ok s2)
    = Except.ok (⟨st.store.filter
        (fun e => !(e.live now && globMatch pattern.data e.key.data)), st.up⟩ : RedisState)
  rw [hkeys]
  simp only []
  by_cases hempty : ((st.store.filter
      (fun e => e.live now && globMatch pattern.data e.key.data)).map Entry.key).isEmpty
      = true
  · rw [if_pos hempty]
    have hnil : st.store.filter
        (fun e => e.live now && globMatch pattern.data e.key.data) = [] := by
      cases hf : st.store.filter
          (fun e => e.live now && globMatch pattern.data e.key.data) with
      | nil => rfl
      | cons x xs => rw [hf] at hempty; simp [List.isEmpty] at hempty
    have hall : ∀ e ∈ st.store,
        (!(e.live now && globMatch pattern.data e.key.data)) = true := by
      intro e he
      cases hpred : (e.live now && globMatch pattern.data e.key.data) with
      | false => rfl
      | true =>
        have : e ∈ st.store.filter
            (fun e => e.live now && globMatch pattern.data e.key.data) :=
          List.mem_filter.mpr ⟨he, hpred⟩
        rw [hnil] at this
        cases this
    rw [List.filter_eq_self.mpr hall]
  · rw [if_neg hempty]
    have hdel : redisDel st ((st.store.filter
        (fun e => e.live now && globMatch pattern.data e.key.data)).map Entry.key)
        = .ok ((st.store.filter (fun e => ((st.store.filter
              (fun e => e.live now && globMatch pattern.data e.key.data)).map
                Entry.key).contains e.key)).length,
           ⟨st.store.filter (fun e => !((st.store.filter
              (fun e => e.live now && globMatch pattern.data e.key.data)).map
                Entry.key).contains e.key), st.up⟩) := by
      unfold redisDel
      rw [hup]
      rfl
    rw [hdel]
    have hcong : ∀ e ∈ st.store,
        (!((st.store.filter
            (fun e => e.live now && globMatch pattern.data e.key.data)).map
              Entry.key).contains e.key)
          = (!(e.live now && globMatch pattern.data e.key.data)) := by
      intro e he
      cases hpred : (e.live now && globMatch pattern.data e.key.data) with
      | true =>
        have hmem : e.key ∈ (st.store.filter
            (fun e => e.live now && globMatch pattern.data e.key.data)).map Entry.key :=
          List.mem_map_of_mem Entry.key (List.mem_filter.mpr ⟨he, hpred⟩)
        have hcontains : ((st.store.filter
            (fun e => e.live now && globMatch pattern.data e.key.data)).map
              Entry.key).contains e.key = true :=
          List.elem_eq_true_of_mem hmem
        rw [hcontains]
      | false =>
        cases hc : ((st.store.filter
            (fun e => e.live now && globMatch pattern.data e.key.data)).map
              Entry.key).contains e.key with
        | false => rfl
        | true =>
          exfalso
          have hmem := List.mem_of_elem_eq_true hc
          obtain ⟨e2, he2, hke⟩ := List.mem_map.mp hmem
          obtain ⟨he2s, hpred2⟩ := List.mem_filter.mp he2
          have : e2 = e := nodup_key_inj st.store hnd e2 he2s e he hke
          rw [this, hpred] at hpred2
          cases hpred2
    rw [List.filter_congr hcong]

/-- The keys of an entity's cached data, per the amended C9: its status key,
its detection key, and every key under its MQTT-topic prefix, counting only
live entries (expired entries are invisible to `KEYS` and are not deleted). -/
def entityCacheKey (now : Nat) (bin_id : String) (e : Entry) : Bool :=
  e.live now &&
    (e.key == "bin:status:" ++ bin_id || e.key == "detection:" ++ bin_id ||
     ("mqtt:message:waste_bins/" ++ bin_id ++ "/").data.isPrefixOf e.key.data)

/-- C9 counterexample: the cache holds only the live status key of entity
`other`; clearing entity `*` deletes it, because `clear_bin_cache` passes
`bin:status:*` to `KEYS` as a glob pattern — yet that key is not the status
key, detection key, or a message key of entity `*`.  "Leaves every other cache
key unchanged" fails for identifiers containing glob metacharacters. -/
theorem clear_cache_glob_counterexample :
    clear_bin_cache ⟨[⟨"bin:status:other", .ofJson (.obj []), some 10⟩], true⟩ 0 "*"
      = ⟨[], true⟩ ∧
    ("bin:status:other" ≠ "bin:status:" ++ "*" ∧
     "bin:status:other" ≠ "detection:" ++ "*" ∧
     (("mqtt:message:waste_bins/" ++ "*" ++ "/").data.isPrefixOf
        "bin:status:other".data) = false) :=
  ⟨rfl, by decide, by decide, by decide⟩

/-- C9 amended: for an entity identifier free of glob metacharacters
(`*`, `?`, `[`, `\`), `clear_bin_cache` deletes exactly the entity's live
status key, detection key and message keys and leaves every other entry
unchanged; on an entity with no (live) cached data the cache is unchanged —
and in all cases nothing is raised (the return type is total). -/
theorem clear_bin_cache_frame (st : RedisState) (now : Nat) (bin_id : String)
    (hup : st.up = true)
    (hnd : (st.store.map Entry.key).Nodup)
    (hmeta : bin_id.data.all
      (fun c => !(c == '*') && !(c == '?') && !(c == '[') && !(c == '\\')) = true) :
    clear_bin_cache st now bin_id
      = ⟨st.store.filter (fun e => !entityCacheKey now bin_id e), st.up⟩ ∧
    (st.store.all (fun e => !entityCacheKey now bin_id e) = true →
      clear_bin_cache st now bin_id = st) := by
  have hplain : plainChars bin_id.data = true := by
    rw [plainChars, List.all_eq_true]
    intro c hc
    have := List.all_eq_true.mp hmeta c hc
    obtain ⟨h1, -⟩ := Bool.and_eq_true_iff.mp this
    obtain ⟨h2, h3⟩ := Bool.and_eq_true_iff.mp h1
    simp [h2, h3]
  have hplain1 : plainChars ("bin:status:" ++ bin_id).data = true := by
    rw [String.data_append, plainChars, List.all_append]
    exact Bool.and_eq_true_iff.mpr ⟨by decide, hplain⟩
  have hplain2 : plainChars ("detection:" ++ bin_id).data = true := by
    rw [String.data_append, plainChars, List.all_append]
    exact Bool.and_eq_true_iff.mpr ⟨by decide, hplain⟩
  have hplain3 : plainChars ("mqtt:message:waste_bins/" ++ bin_id ++ "/").data = true := by
    rw [String.data_append, String.data_append, plainChars, List.all_append,
      List.all_append]
    exact Bool.and_eq_true_iff.mpr
      ⟨Bool.and_eq_true_iff.mpr ⟨by decide, hplain⟩, by decide⟩
  have hpat3 : ("mqtt:message:waste_bins/" ++ bin_id ++ "/*").data
      = ("mqtt:message:waste_bins/" ++ bin_id ++ "/").data ++ ['*'] := by
    simp [String.data_append, List.append_assoc]
  set f1 := fun e : Entry =>
    !(e.live now && globMatch ("bin:status:" ++ bin_id).data e.key.data) with hf1
  set f2 := fun e : Entry =>
    !(e.live now && globMatch ("detection:" ++ bin_id).data e.key.data) with hf2
  set f3 := fun e : Entry =>
    !(e.live now
      && globMatch ("mqtt:message:waste_bins/" ++ bin_id ++ "/*").data e.key.data)
    with hf3
  have hnd1 : ((st.store.filter f1).map Entry.key).Nodup :=
    ((List.filter_sublist st.store).map Entry.key).nodup hnd
  have hnd2 : (((st.store.filter f1).filter f2).map Entry.key).Nodup :=
    ((List.filter_sublist _).map Entry.key).nodup hnd1
  have h1 := clear_pattern_step_filter st now ("bin:status:" ++ bin_id) hup hnd
  have h2 := clear_pattern_step_filter ⟨st.store.filter f1, st.up⟩ now
    ("detection:" ++ bin_id) hup hnd1
  have h3 := clear_pattern_step_filter ⟨(st.store.filter f1).filter f2, st.up⟩ now
    ("mqtt:message:waste_bins/" ++ bin_id ++ "/*") hup hnd2
  have hmain : clear_bin_cache st now bin_id
      = ⟨st.store.filter (fun e => !entityCacheKey now bin_id e), st.up⟩ := by
    unfold clear_bin_cache
    rw [List.foldl_cons, h1, List.foldl_cons, h2, List.foldl_cons, h3, List.foldl_nil]
    have hcomp : ((st.store.filter f1).filter f2).filter f3
        = st.store.filter (fun e => !entityCacheKey now bin_id e) := by
      rw [List.filter_filter, List.filter_filter]
      apply List.filter_congr
      intro e he
      rw [hf1, hf2, hf3]
      simp only []
      rw [globMatch_plain_beq _ hplain1, globMatch_plain_beq _ hplain2,
        hpat3, globMatch_prefix_beq _ hplain3]
      unfold entityCacheKey
      cases e.live now <;>
        cases e.key == "bin:status:" ++ bin_id <;>
        cases e.key == "detection:" ++ bin_id <;>
        cases ("mqtt:message:waste_bins/" ++ bin_id ++ "/").data.isPrefixOf e.key.data <;>
        rfl
    rw [hcomp]
  refine ⟨hmain, ?_⟩
  intro hnone
  rw [hmain, List.filter_eq_self.mpr (List.all_eq_true.mp hnone)]

/-- C9 amended witness: a cache with entity `b`'s status key, a message key of
`b`, and an unrelated live key; clearing `b` removes exactly the first two. -/
theorem clear_bin_cache_frame_witness :
    ((⟨[⟨"bin:status:b", .ofJson (.obj []), some 10⟩,
        ⟨"mqtt:message:waste_bins/b/t", .ofJson (.obj []), some 10⟩,
        ⟨"analytics:dash", .ofJson (.obj []), some 10⟩], true⟩ : RedisState).up = true ∧
     ("b".data.all
       (fun c => !(c == '*') && !(c == '?') && !(c == '[') && !(c == '\\'))) = true) ∧
    clear_bin_cache
        ⟨[⟨"bin:status:b", .ofJson (.obj []), some 10⟩,
          ⟨"mqtt:message:waste_bins/b/t", .ofJson (.obj []), some 10⟩,
          ⟨"analytics:dash", .ofJson (.obj []), some 10⟩], true⟩ 0 "b"
      = ⟨[⟨"bin:status:b", .ofJson (.obj []), some 10⟩,
          ⟨"mqtt:message:waste_bins/b/t", .ofJson (.obj []), some 10⟩,
          ⟨"analytics:dash", .ofJson (.obj []), some 10⟩].filter
            (fun e => !entityCacheKey 0 "b" e), true⟩ :=
  ⟨⟨rfl, by decide⟩,
   (clear_bin_cache_frame
     ⟨[⟨"bin:status:b", .ofJson (.obj []), some 10⟩,
       ⟨"mqtt:message:waste_bins/b/t", .ofJson (.obj []), some 10⟩,
       ⟨"analytics:dash", .ofJson (.obj []), some 10⟩], true⟩ 0 "b"
     rfl (by decide) (by decide)).1⟩

/-! ### C10: entries without a fill_level field are never critical -/

/-- A decoded status dict without a `fill_level` field is read as fill level 0
and fails the criticality test for every threshold ≥ 0. -/
theorem bin_not_critical (t : Int) (ht : 0 ≤ t) (es : List (String × Json))
    (hmiss : es.all (fun p => !(p.1 == "fill_level")) = true) :
    dictGet es "fill_level" (.num 0) = .num 0 ∧
    bin_is_critical t (.obj es) = some false := by
  have hfind : es.find? (fun p => p.1 == "fill_level") = none := by
    rw [List.find?_eq_none]
    intro p hp hcontra
    have := List.all_eq_true.mp hmiss p hp
    rw [hcontra] at this
    cases this
  have hget : dictGet es "fill_level" (.num 0) = .num 0 := by
    unfold dictGet
    rw [hfind]
  refine ⟨hget, ?_⟩
  show pyGtInt (dictGet es "fill_level" (.num 0)) t = some false
  rw [hget]
  have hneg : ¬t < 0 := by omega
  simp [pyGtInt, hneg]

/-- C10: a cached status entry whose decoded JSON object lacks the
`fill_level` field is treated as fill level 0 and is never reported critical:
when every live status entry decodes to such an object, the critical-bin scan
returns `[]`, for the generalized threshold (any `t ≥ 0`) and for the
source's fixed threshold 80. -/
theorem missing_fill_level_not_critical (st : RedisState) (now : Nat) (t : Int)
    (entries : List (String × Json))
    (ht : 0 ≤ t)
    (hmiss : entries.all (fun p => !(p.1 == "fill_level")) = true)
    (hall : ∀ e ∈ st.store, e.live now = true →
        globMatch "bin:status:*".data e.key.data = true →
        ∃ es, e.val = .ofJson (.obj es) ∧
          es.all (fun p => !(p.1 == "fill_level")) = true) :
    dictGet entries "fill_level" (.num 0) = .num 0 ∧
    bin_is_critical t (.obj entries) = some false ∧
    get_all_critical_bins_at st now t = [] ∧
    get_all_critical_bins st now = [] := by
  have hgen : ∀ t2 : Int, 0 ≤ t2 → get_all_critical_bins_at st now t2 = [] := by
    intro t2 ht2
    by_cases hup : st.up = true
    case neg =>
      have hub : st.up = false := bool_not_true hup
      simp [get_all_critical_bins_at, redisKeys, hub]
    case pos =>
      have hkeys : redisKeys st now "bin:status:*"
          = .ok ((st.store.filter
              (fun e => e.live now
                && globMatch "bin:status:*".data e.key.data)).map Entry.key) := by
        unfold redisKeys
        rw [hup]
        rfl
      have hstep : ∀ k ∈ (st.store.filter
          (fun e => e.live now && globMatch "bin:status:*".data e.key.data)).map
            Entry.key,
          ∀ b, critical_step st now t2 (some b) k = some b := by
        intro k hk b
        obtain ⟨e1, he1, rfl⟩ := List.mem_map.mp hk
        obtain ⟨he1s, hpred1⟩ := List.mem_filter.mp he1
        obtain ⟨hlive1, hglob1⟩ := Bool.and_eq_true_iff.mp hpred1
        cases hfind : st.store.find?
            (fun e => e.key == e1.key && e.live now) with
        | none =>
          exfalso
          rw [List.find?_eq_none] at hfind
          have := hfind e1 he1s
          simp [hlive1] at this
        | some e2 =>
          have hprops := List.find?_some hfind
          obtain ⟨hkey2, hlive2⟩ := Bool.and_eq_true_iff.mp hprops
          have hmem2 := List.mem_of_find?_eq_some hfind
          have hkeyeq : e2.key = e1.key := eq_of_beq hkey2
          have hglob2 : globMatch "bin:status:*".data e2.key.data = true := by
            rw [hkeyeq]
            exact hglob1
          obtain ⟨es, hval, hmiss2⟩ := hall e2 hmem2 hlive2 hglob2
          have hget : redisGet st now e1.key = .ok (some e2.val) := by
            unfold redisGet
            rw [hup, hfind]
            rfl
          unfold critical_step
          rw [hget, hval]
          simp only [Stored.truthy, jsonLoads, if_true]
          rw [(bin_not_critical t2 ht2 es hmiss2).2]
      unfold get_all_critical_bins_at
      rw [hkeys]
      simp only []
      have hloop : ∀ (ks : List String),
          (∀ k ∈ ks, ∀ b, critical_step st now t2 (some b) k = some b) →
          ∀ b, ks.foldl (critical_step st now t2) (some b) = some b := by
        intro ks
        induction ks with
        | nil => intro _ b; rfl
        | cons k ks2 ih =>
          intro hks b
          rw [List.foldl_cons, hks k (List.mem_cons_self k ks2) b]
          exact ih (fun k2 hk2 => hks k2 (List.mem_cons_of_mem k hk2)) b
      rw [hloop _ hstep []]
  exact ⟨(bin_not_critical t ht entries hmiss).1,
    (bin_not_critical t ht entries hmiss).2,
    hgen t ht,
    hgen 80 (by omega)⟩

/-- C10 witness: a cache whose single live status entry decodes to
`{"battery": 99}` (no fill_level); the scan reports nothing at threshold 3
and at the source's threshold 80. -/
theorem missing_fill_level_not_critical_witness :
    ((0 : Int) ≤ 3 ∧
     ([("battery", Json.num 99)].all (fun p => !(p.1 == "fill_level"))) = true) ∧
    dictGet [("battery", Json.num 99)] "fill_level" (.num 0) = .num 0 ∧
    bin_is_critical 3 (.obj [("battery", Json.num 99)]) = some false ∧
    get_all_critical_bins_at
        ⟨[⟨"bin:status:x", .ofJson (.obj [("battery", Json.num 99)]), none⟩], true⟩ 0 3
      = [] ∧
    get_all_critical_bins
        ⟨[⟨"bin:status:x", .ofJson (.obj [("battery", Json.num 99)]), none⟩], true⟩ 0
      = [] :=
  ⟨⟨by decide, by decide⟩,
   missing_fill_level_not_critical
     ⟨[⟨"bin:status:x", .ofJson (.obj [("battery", Json.num 99)]), none⟩], true⟩ 0 3
     [("battery", Json.num 99)] (by decide) (by decide)
     (by
       intro e he hlive hmatch
       rw [List.mem_singleton] at he
       exact ⟨[("battery", Json.num 99)], by rw [he], by decide⟩)⟩

end Waste
